import Mathlib

/-
Verification of the deterministic world-state engine of the Treasure Seeker
grid game, translated from `src/main.ts` (the current evolution: memento
persistence, reset, inventory with coin identities) and `src/unnamed/part_000`
(an earlier evolution: coin records with serials, store-first window
regeneration, a bare inventory counter).

Modelling conventions:
- JavaScript arrays become `List`, `Map`/plain-object tables become ordered
  association lists with JS `Map` set/get semantics (`mapSet`, `mapGet`).
- `JSON.stringify`/`JSON.parse` of the persisted forms are embedded as an
  executable codec (`serializeStringList`, `parseStringList`, ...); a
  `JSON.parse` exception is `none`.
- Geographic coordinates are exact fixed-point decimals: an `Int` count of
  `10 ^ (-14)` degree units, enough to represent every literal in the source
  and every multiple of the `1e-4` tile size exactly.  Binary floating-point
  rounding is idealized away, matching the spec's "no rounding ambiguity".
- `Math.random` draws are an explicit supply `Nat → Nat` consumed at an index.
-/

namespace TreasureSeeker

/-! ## JSON string-array codec

`Cache.toMemento` is `JSON.stringify(this.coins)` and `fromMemento` is
`JSON.parse(memento)`.  The serializer follows the ECMA-262 `QuoteJSONString`
algorithm; the parser accepts the whitespace-free JSON grammar that
`JSON.stringify` emits and rejects everything else. -/

/-- Lower-case hex digit character for `k < 16`. -/
def hexDigitChar (k : Nat) : Char :=
  if k < 10 then Char.ofNat (48 + k) else Char.ofNat (87 + k)

/-- Four-digit lower-case hex rendering of `n`, as in a JSON `\u00XX` escape. -/
def hex4 (n : Nat) : List Char :=
  [hexDigitChar (n / 4096 % 16), hexDigitChar (n / 256 % 16),
   hexDigitChar (n / 16 % 16), hexDigitChar (n % 16)]

/-- JSON escaping of one character (ECMA-262 `QuoteJSONString`): quote and
backslash get two-character escapes, the named control characters get their
short escapes, all other control characters get `\u00XX`, and every other
character stands for itself. -/
def escapeChar (c : Char) : List Char :=
  if c = Char.ofNat 34 then [Char.ofNat 92, Char.ofNat 34]
  else if c = Char.ofNat 92 then [Char.ofNat 92, Char.ofNat 92]
  else if c = Char.ofNat 8 then [Char.ofNat 92, 'b']
  else if c = Char.ofNat 9 then [Char.ofNat 92, 't']
  else if c = Char.ofNat 10 then [Char.ofNat 92, 'n']
  else if c = Char.ofNat 12 then [Char.ofNat 92, 'f']
  else if c = Char.ofNat 13 then [Char.ofNat 92, 'r']
  else if c.toNat < 32 then Char.ofNat 92 :: 'u' :: hex4 c.toNat
  else [c]

/-- A string rendered as a JSON string literal (character list form). -/
def quoteChars (s : List Char) : List Char :=
  Char.ofNat 34 :: (s.flatMap escapeChar ++ [Char.ofNat 34])

/-- Comma-separated JSON string literals for the elements of `L`. -/
def serializeElems : List String → List Char
  | [] => []
  | [s] => quoteChars s.data
  | s :: rest => quoteChars s.data ++ ',' :: serializeElems rest

/-- Embedding of `JSON.stringify` on an array of strings. -/
def serializeStringList (L : List String) : String :=
  String.mk ('[' :: (serializeElems L ++ [']']))

/-- Numeric value of a hex digit character, `none` for a non-hex character. -/
def hexVal (c : Char) : Option Nat :=
  if 48 ≤ c.toNat ∧ c.toNat ≤ 57 then some (c.toNat - 48)
  else if 97 ≤ c.toNat ∧ c.toNat ≤ 102 then some (c.toNat - 87)
  else if 65 ≤ c.toNat ∧ c.toNat ≤ 70 then some (c.toNat - 55)
  else none

/-- Parse the body of a JSON string literal after its opening quote, returning
the decoded characters and the input remaining after the closing quote.
Raw control characters and malformed escapes are rejected, as `JSON.parse`
rejects them. -/
def parseStringBody : List Char → Option (List Char × List Char)
  | [] => none
  | c :: cs =>
    if c = Char.ofNat 34 then some ([], cs)
    else if c = Char.ofNat 92 then
      match cs with
      | [] => none
      | e :: cs1 =>
        if e = Char.ofNat 34 then
          (parseStringBody cs1).map (fun p => (Char.ofNat 34 :: p.1, p.2))
        else if e = Char.ofNat 92 then
          (parseStringBody cs1).map (fun p => (Char.ofNat 92 :: p.1, p.2))
        else if e = '/' then
          (parseStringBody cs1).map (fun p => ('/' :: p.1, p.2))
        else if e = 'b' then
          (parseStringBody cs1).map (fun p => (Char.ofNat 8 :: p.1, p.2))
        else if e = 't' then
          (parseStringBody cs1).map (fun p => (Char.ofNat 9 :: p.1, p.2))
        else if e = 'n' then
          (parseStringBody cs1).map (fun p => (Char.ofNat 10 :: p.1, p.2))
        else if e = 'f' then
          (parseStringBody cs1).map (fun p => (Char.ofNat 12 :: p.1, p.2))
        else if e = 'r' then
          (parseStringBody cs1).map (fun p => (Char.ofNat 13 :: p.1, p.2))
        else if e = 'u' then
          match cs1 with
          | a :: b :: c2 :: d :: cs2 =>
            match hexVal a, hexVal b, hexVal c2, hexVal d with
            | some x1, some x2, some x3, some x4 =>
              let n := ((x1 * 16 + x2) * 16 + x3) * 16 + x4
              if h : n.isValidChar then
                (parseStringBody cs2).map (fun p => (Char.ofNatAux n h :: p.1, p.2))
              else none
            | _, _, _, _ => none
          | _ => none
        else none
    else if c.toNat < 32 then none
    else (parseStringBody cs).map (fun p => (c :: p.1, p.2))

/-- Every successful `parseStringBody` consumes at least the closing quote. -/
theorem parseStringBody_length :
    ∀ (cs : List Char) s r, parseStringBody cs = some (s, r) → r.length < cs.length := by
  intro cs
  induction cs using parseStringBody.induct <;>
    intro s r h <;>
    rw [parseStringBody.eq_def] at h <;>
    simp +decide only [*, Option.map_eq_some', reduceIte, reduceDIte,
      Option.some.injEq, Prod.mk.injEq] at h <;>
    first
      | (obtain ⟨a, hp, rfl, rfl⟩ := h
         rename_i ih
         have := ih a.1 a.2 hp
         simp only [List.length_cons]
         omega)
      | (simp_all; omega)
      | simp_all
      | omega

/-- Parse a JSON string literal including its opening quote. -/
def parseJString (cs : List Char) : Option (List Char × List Char) :=
  match cs with
  | c :: cs1 => if c = Char.ofNat 34 then parseStringBody cs1 else none
  | [] => none

/-- Every successful `parseJString` consumes at least its two quotes. -/
theorem parseJString_length (cs : List Char) (s r : List Char)
    (h : parseJString cs = some (s, r)) : r.length + 1 < cs.length := by
  match cs with
  | [] => simp [parseJString] at h
  | c :: cs1 =>
    simp only [parseJString] at h
    by_cases hc : c = Char.ofNat 34
    · rw [if_pos hc] at h
      have := parseStringBody_length cs1 s r h
      simp only [List.length_cons]
      omega
    · rw [if_neg hc] at h
      exact absurd h (by simp)

/-- Parse the comma-separated string elements of a JSON array after its opening
bracket, consuming the closing bracket. -/
def parseElems (cs : List Char) : Option (List String × List Char) :=
  match h : parseJString cs with
  | none => none
  | some (_, []) => none
  | some (s, c :: rest1) =>
    if c = ',' then
      match parseElems rest1 with
      | some (ss, r) => some (String.mk s :: ss, r)
      | none => none
    else if c = ']' then some ([String.mk s], rest1)
    else none
termination_by cs.length
decreasing_by
  have := parseJString_length cs s (c :: rest1) h
  simp only [List.length_cons] at this
  omega

/-- Embedding of `JSON.parse` restricted to arrays of strings, the shape of a
cache memento; every other input is a parse failure (`JSON.parse` throwing or
the result not having the destructured shape). -/
def parseStringList (m : String) : Option (List String) :=
  match m.data with
  | c :: rest =>
    if c = '[' then
      match rest with
      | c2 :: _ =>
        if c2 = ']' then (if rest.length = 1 then some [] else none)
        else
          match parseElems rest with
          | some (ss, r) => if r = [] then some ss else none
          | none => none
      | [] => none
    else none
  | [] => none

/-- Hex digit characters decode to the value they encode. -/
theorem hexVal_hexDigitChar (k : Nat) (hk : k < 16) :
    hexVal (hexDigitChar k) = some k := by
  interval_cases k <;> decide

/-- Decoding a JSON-escaped character stream restores the original characters:
`parseStringBody` inverts `escapeChar` up to the closing quote. -/
theorem parseStringBody_escape (s : List Char) (rest : List Char) :
    parseStringBody (s.flatMap escapeChar ++ Char.ofNat 34 :: rest) = some (s, rest) := by
  induction s with
  | nil =>
    rw [List.flatMap_nil, List.nil_append, parseStringBody.eq_def]
    simp +decide
  | cons c s ih =>
    rw [List.flatMap_cons, List.append_assoc, escapeChar]
    by_cases h1 : c = Char.ofNat 34
    · subst h1
      simp +decide only [reduceIte, List.cons_append]
      rw [parseStringBody.eq_def]
      simp +decide only [reduceIte, ih, Option.map_some', List.append_eq, List.nil_append]
    all_goals rw [if_neg h1]
    by_cases h2 : c = Char.ofNat 92
    · subst h2
      simp +decide only [reduceIte, List.cons_append]
      rw [parseStringBody.eq_def]
      simp +decide only [reduceIte, ih, Option.map_some', List.append_eq, List.nil_append]
    all_goals rw [if_neg h2]
    by_cases h3 : c = Char.ofNat 8
    · subst h3
      simp +decide only [reduceIte, List.cons_append]
      rw [parseStringBody.eq_def]
      simp +decide only [reduceIte, ih, Option.map_some', List.append_eq, List.nil_append]
    all_goals rw [if_neg h3]
    by_cases h4 : c = Char.ofNat 9
    · subst h4
      simp +decide only [reduceIte, List.cons_append]
      rw [parseStringBody.eq_def]
      simp +decide only [reduceIte, ih, Option.map_some', List.append_eq, List.nil_append]
    all_goals rw [if_neg h4]
    by_cases h5 : c = Char.ofNat 10
    · subst h5
      simp +decide only [reduceIte, List.cons_append]
      rw [parseStringBody.eq_def]
      simp +decide only [reduceIte, ih, Option.map_some', List.append_eq, List.nil_append]
    all_goals rw [if_neg h5]
    by_cases h6 : c = Char.ofNat 12
    · subst h6
      simp +decide only [reduceIte, List.cons_append]
      rw [parseStringBody.eq_def]
      simp +decide only [reduceIte, ih, Option.map_some', List.append_eq, List.nil_append]
    all_goals rw [if_neg h6]
    by_cases h7 : c = Char.ofNat 13
    · subst h7
      simp +decide only [reduceIte, List.cons_append]
      rw [parseStringBody.eq_def]
      simp +decide only [reduceIte, ih, Option.map_some', List.append_eq, List.nil_append]
    all_goals rw [if_neg h7]
    by_cases h8 : c.toNat < 32
    · rw [if_pos h8]
      have hv : (((c.toNat / 4096 % 16 * 16 + c.toNat / 256 % 16) * 16 +
          c.toNat / 16 % 16) * 16 + c.toNat % 16) = c.toNat := by omega
      simp only [hex4, List.cons_append, List.append_assoc]
      rw [parseStringBody.eq_def]
      simp +decide only [reduceIte]
      rw [hexVal_hexDigitChar _ (by omega), hexVal_hexDigitChar _ (by omega),
        hexVal_hexDigitChar _ (by omega), hexVal_hexDigitChar _ (by omega)]
      simp only [hv]
      have hvalid : c.toNat.isValidChar := c.valid
      rw [dif_pos hvalid]
      simp only [List.append_eq, List.nil_append, ih, Option.map_some',
        Option.some.injEq, Prod.mk.injEq]
      refine ⟨?_, trivial⟩
      have hc := Char.ofNat_toNat c
      rw [Char.ofNat, dif_pos hvalid] at hc
      rw [hc]
    · rw [if_neg h8]
      simp only [List.cons_append, List.nil_append]
      rw [parseStringBody.eq_def]
      simp only [if_neg h1, if_neg h2, if_neg h8, ih, Option.map_some']

/-- Decoding a rendered JSON string literal restores the original string. -/
theorem parseJString_quote (s rest : List Char) :
    parseJString (quoteChars s ++ rest) = some (s, rest) := by
  rw [quoteChars]
  simp only [List.cons_append, List.append_assoc, List.singleton_append]
  rw [parseJString.eq_def]
  simp +decide only [reduceIte, List.nil_append, parseStringBody_escape]

/-- Decoding rendered array elements restores the original string list. -/
theorem parseElems_serialize (L : List String) : ∀ (s0 : String) (rest : List Char),
    parseElems (serializeElems (s0 :: L) ++ ']' :: rest) = some (s0 :: L, rest) := by
  induction L with
  | nil =>
    intro s0 rest
    simp only [serializeElems]
    rw [parseElems.eq_def]
    split
    · rename_i heq
      rw [parseJString_quote] at heq
      exact absurd heq (by simp)
    · rename_i heq
      rw [parseJString_quote] at heq
      simp at heq
    · rename_i sx c rest1 heq
      rw [parseJString_quote] at heq
      obtain ⟨hs, hc, hr⟩ : sx = s0.data ∧ c = ']' ∧ rest1 = rest := by
        simpa [eq_comm, and_assoc] using heq
      subst hs; subst hc; subst hr
      simp +decide only [reduceIte]
  | cons s1 L ih =>
    intro s0 rest
    simp only [serializeElems]
    rw [List.append_assoc, List.cons_append]
    rw [parseElems.eq_def]
    split
    · rename_i heq
      rw [parseJString_quote] at heq
      exact absurd heq (by simp)
    · rename_i heq
      rw [parseJString_quote] at heq
      simp at heq
    · rename_i sx c rest1 heq
      rw [parseJString_quote] at heq
      obtain ⟨hs, hc, hr⟩ : sx = s0.data ∧ c = ',' ∧
          rest1 = serializeElems (s1 :: L) ++ ']' :: rest := by
        simpa [eq_comm, and_assoc] using heq
      subst hs; subst hc; subst hr
      simp +decide only [reduceIte, ih]

/-- The memento codec round-trip: parsing a serialized coin list restores it
exactly, for every list of coin strings. -/
theorem parseStringList_serialize (L : List String) :
    parseStringList (serializeStringList L) = some L := by
  cases L with
  | nil => decide
  | cons s0 L =>
    rw [serializeStringList, parseStringList.eq_def]
    have hhead : ∃ t, serializeElems (s0 :: L) = Char.ofNat 34 :: t := by
      cases L <;> exact ⟨_, rfl⟩
    obtain ⟨t, ht⟩ := hhead
    rw [ht]
    simp +decide only [reduceIte, List.cons_append]
    have harr : Char.ofNat 34 :: (t ++ [']']) = serializeElems (s0 :: L) ++ ']' :: [] := by
      rw [ht]
      simp
    rw [harr, parseElems_serialize L s0 []]
    simp

/-! ## Core model of `src/main.ts` -/

/-- Grid cell (`class Cell` in main.ts), identified by integer coordinates. -/
structure Cell where
  i : Int
  j : Int
deriving DecidableEq, Repr

/-- Printed form of a cell (`Cell.toString`): `"i:j"`. -/
def Cell.toKey (c : Cell) : String :=
  toString c.i ++ ":" ++ toString c.j

/-- Embedding of `generateCoinID`: `"i:j#serial"`. -/
def generateCoinID (cell : Cell) (serial : Nat) : String :=
  Cell.toKey cell ++ "#" ++ toString serial

/-- Fixed-point latitude or longitude: an integer count of `10 ^ (-14)`
degrees (exact for every coordinate literal in the source and every multiple
of the tile size). -/
abbrev Coord := Int

/-- `TILE_DEGREES = 1e-4`, expressed in `10 ^ (-14)` degree units. -/
def TILE_UNITS : Int := 10000000000

/-- `VISIBLE_RADIUS` of the main.ts visibility window. -/
def VISIBLE_RADIUS : Nat := 5

/-- Latitude of `OAKES_COORDINATES` (36.98949379578401) in coordinate units. -/
def OAKES_LAT : Coord := 3698949379578401

/-- Longitude of `OAKES_COORDINATES` (-122.06277128548504) in coordinate units. -/
def OAKES_LNG : Coord := -12206277128548504

/-- Embedding of `convertLatLngToGrid`: `Math.floor(lat / TILE_DEGREES)` and
`Math.floor(lng / TILE_DEGREES)` on exact fixed-point inputs (`Int.fdiv` is
floor division). -/
def convertLatLngToGrid (lat lng : Coord) : Cell :=
  ⟨Int.fdiv lat TILE_UNITS, Int.fdiv lng TILE_UNITS⟩

/-- Embedding of `class Cache`: its cell and its ordered coin list. -/
structure Cache where
  cell : Cell
  coins : List String
deriving DecidableEq, Repr

/-- Embedding of `Cache.toMemento`: `JSON.stringify(this.coins)`. -/
def Cache.toMemento (c : Cache) : String :=
  serializeStringList c.coins

/-- Embedding of `Cache.fromMemento`: `this.coins = JSON.parse(memento)`; a
`JSON.parse` exception is `none`. -/
def Cache.fromMemento (c : Cache) (m : String) : Option Cache :=
  (parseStringList m).map (fun coins => { c with coins := coins })

/-- The start position of JavaScript `Array.splice(index, 1)`: a negative
index counts back from the end of the list (floored at 0), a non-negative one
is capped at the length, and a start at the length removes nothing. -/
def spliceStart (index : Int) (len : Nat) : Nat :=
  if index < 0 then (index + len).toNat else min index.toNat len

/-- Embedding of `Cache.removeCoin`: `this.coins.splice(index, 1)[0] || null`
with the splice start position given by `spliceStart`.  The removed element is
returned unless it is falsy (the empty string), in which case `null` comes
back even though the list was mutated. -/
def Cache.removeCoin (c : Cache) (index : Int) : Option String × Cache :=
  if h : spliceStart index c.coins.length < c.coins.length then
    (if c.coins.get ⟨spliceStart index c.coins.length, h⟩ = "" then none
     else some (c.coins.get ⟨spliceStart index c.coins.length, h⟩),
     { c with coins := c.coins.eraseIdx (spliceStart index c.coins.length) })
  else (none, c)

/-- Embedding of `Cache.addCoin`: `this.coins.push(coin)`. -/
def Cache.addCoin (c : Cache) (coin : String) : Cache :=
  { c with coins := c.coins ++ [coin] }

/-- Embedding of `class Player`: current cell, inventory of coin-id strings,
and the movement history of fixed-point geographic anchor points. -/
structure Player where
  cell : Cell
  inventory : List String
  movementHistory : List (Coord × Coord)
deriving DecidableEq, Repr

/-- Embedding of `Player.addCoin`: `this.inventory.push(coin)`. -/
def Player.addCoin (p : Player) (coin : String) : Player :=
  { p with inventory := p.inventory ++ [coin] }

/-- Embedding of `Player.removeCoin`:
`this.inventory = this.inventory.filter((c) => c !== coin)` — every
occurrence of `coin` is removed, and nothing happens when it is absent. -/
def Player.removeCoin (p : Player) (coin : String) : Player :=
  { p with inventory := p.inventory.filter (fun c => c ≠ coin) }

/-- A movement direction of `Player.move`. -/
inductive Direction where
  | north
  | south
  | east
  | west
deriving DecidableEq, Repr

/-- Embedding of `Player.move`: one grid step along the chosen axis and an
appended history anchor point at the new cell. -/
def Player.move (p : Player) (d : Direction) : Player :=
  let i := p.cell.i + (match d with | .north => 1 | .south => -1 | _ => 0)
  let j := p.cell.j + (match d with | .east => 1 | .west => -1 | _ => 0)
  { p with
      cell := ⟨i, j⟩,
      movementHistory := p.movementHistory ++ [(i * TILE_UNITS, j * TILE_UNITS)] }

/-- JS `Map.get` / keyed-object read on an insertion-ordered association
list. -/
def mapGet {α : Type} (m : List (String × α)) (k : String) : Option α :=
  (m.find? (fun p => p.1 = k)).map (fun p => p.2)

/-- JS `Map.set` / keyed-object write: overwrite the entry in place when the
key is present, append otherwise. -/
def mapSet {α : Type} (m : List (String × α)) (k : String) (v : α) :
    List (String × α) :=
  if m.any (fun p => p.1 = k) then
    m.map (fun p => if p.1 = k then (k, v) else p)
  else m ++ [(k, v)]

/-- The mutable session state of main.ts: the player, the cache-memento map
`cacheStorage`, the session-local `originalCacheStorage` of first-creation
mementos, and the currently selected inventory coin. -/
structure GameState where
  player : Player
  cacheStorage : List (String × String)
  originalCacheStorage : List (String × String)
  selectedCoin : Option String
deriving DecidableEq, Repr

/-- Modelled from the spec: `luck.ts` is not under `src/`; spec §4.3 requires
only a deterministic hash from the key string to `[0, 1)`, stable across
sessions, with no time- or session-based seeding.  `luckHash` is such a hash
with 1000 buckets, kept in scaled-integer form so that comparisons against the
spawn probability are exact. -/
def luckHash (s : String) : Nat :=
  s.data.foldl (fun h c => (h * 31 + c.toNat) % 1000) 7

/-- The spawn guard of `regenerateCaches`:
`luck([i, j].toString()) < CACHE_SPAWN_PROBABILITY` — `[i, j].toString()` is
the comma-joined `"i,j"`, and with the scaled `luckHash` the comparison
against the probability constant 0.1 is `luckHash < 100`. -/
def shouldSpawn (i j : Int) : Bool :=
  luckHash (toString i ++ "," ++ toString j) < 100

/-- Embedding of `spawnCache` (its storage effect and the popup cache it
materializes): restore from the stored memento when the cell key is present
(a `JSON.parse` exception propagates as `none`); otherwise create
`Math.floor(Math.random() * 5) + 1` coins using the random supply at index
`k`, persist the initial memento in both `cacheStorage` and
`originalCacheStorage`, and advance the supply index. -/
def spawnCache (st : GameState) (supply : Nat → Nat) (k : Nat) (cell : Cell) :
    Option (GameState × Cache × Nat) :=
  let cellKey := cell.toKey
  match mapGet st.cacheStorage cellKey with
  | some savedState =>
    match Cache.fromMemento ⟨cell, []⟩ savedState with
    | some cache => some (st, cache, k)
    | none => none
  | none =>
    let numberOfCoins := supply k % 5 + 1
    let initialCoins :=
      (List.range numberOfCoins).map (fun serial => generateCoinID cell serial)
    let cache : Cache := ⟨cell, initialCoins⟩
    let cacheState := cache.toMemento
    some ({ st with
              cacheStorage := mapSet st.cacheStorage cellKey cacheState,
              originalCacheStorage :=
                mapSet st.originalCacheStorage cellKey cacheState },
          cache, k + 1)

/-- The inclusive square window scanned by `regenerateCaches`: row-major,
`i` from `p.i - r` to `p.i + r` and `j` likewise, matching the nested loops. -/
def windowCells (p : Cell) (r : Nat) : List Cell :=
  (List.range (2 * r + 1)).flatMap (fun di =>
    (List.range (2 * r + 1)).map (fun dj =>
      Cell.mk (p.i - r + di) (p.j - r + dj)))

/-- The `regenerateCaches` loop body over an explicit cell list: guard each
cell with `shouldSpawn` and run `spawnCache` on the approved ones, collecting
the materialized caches in visit order. -/
def regenCells (cells : List Cell) (st : GameState) (supply : Nat → Nat)
    (k : Nat) : Option (GameState × List Cache × Nat) :=
  match cells with
  | [] => some (st, [], k)
  | cell :: rest =>
    if shouldSpawn cell.i cell.j then
      match spawnCache st supply k cell with
      | some (st1, cache, k1) =>
        match regenCells rest st1 supply k1 with
        | some (st2, caches, k2) => some (st2, cache :: caches, k2)
        | none => none
      | none => none
    else regenCells rest st supply k

/-- Embedding of `regenerateCaches` (main.ts): scan the visibility window
around the player's cell and spawn a cache wherever the guard approves. -/
def regenerateCaches (st : GameState) (supply : Nat → Nat) (k : Nat) :
    Option (GameState × List Cache × Nat) :=
  regenCells (windowCells st.player.cell VISIBLE_RADIUS) st supply k

/-- Embedding of the popup collect handler: `cache.removeCoin(coinIndex)`,
and only when a coin comes back, `player.addCoin`, re-persisting the cache's
memento under its cell key.  When `removeCoin` yields `null` nothing else
happens (though the cache object keeps any splice mutation). -/
def collect (st : GameState) (cache : Cache) (index : Int) :
    GameState × Cache :=
  let r := cache.removeCoin index
  match r.1 with
  | some coin =>
    ({ st with
        player := st.player.addCoin coin,
        cacheStorage := mapSet st.cacheStorage cache.cell.toKey r.2.toMemento },
     r.2)
  | none => (st, r.2)

/-- Embedding of the popup deposit handler: with a selected coin, append that
very string to the cache (`cache.addCoin(selectedCoin)`), filter it out of the
inventory, clear the selection and re-persist the memento; with no selection,
only an alert is shown and nothing changes. -/
def deposit (st : GameState) (cache : Cache) : GameState × Cache :=
  match st.selectedCoin with
  | some coin =>
    let cache1 := cache.addCoin coin
    ({ st with
        player := st.player.removeCoin coin,
        selectedCoin := none,
        cacheStorage := mapSet st.cacheStorage cache.cell.toKey cache1.toMemento },
     cache1)
  | none => (st, cache)

/-- Embedding of clicking an inventory list entry: the click targets are
exactly the rendered inventory coins, so selection is guarded by membership. -/
def selectCoin (st : GameState) (coin : String) : GameState :=
  if coin ∈ st.player.inventory then { st with selectedCoin := some coin }
  else st

/-- One player interaction with an open cache popup and the inventory pane. -/
inductive PlayerOp where
  | collect (index : Int)
  | select (coin : String)
  | deposit
deriving DecidableEq, Repr

/-- Apply one interaction to the session state and the open popup's cache. -/
def applyOp (s : GameState × Cache) (op : PlayerOp) : GameState × Cache :=
  match op with
  | .collect index => collect s.1 s.2 index
  | .select coin => (selectCoin s.1 coin, s.2)
  | .deposit => deposit s.1 s.2

/-- Apply a sequence of interactions in order. -/
def runOps (s : GameState × Cache) (ops : List PlayerOp) : GameState × Cache :=
  ops.foldl applyOp s

/-- Embedding of `reset` after a confirmed prompt, up to the final
regeneration: clear the inventory and the selection, clear `cacheStorage` and
copy every `originalCacheStorage` entry back into it, move the player to the
Oakes cell and restart the movement history there.  `originalCacheStorage`
itself is left as is. -/
def resetState (st : GameState) : GameState :=
  { st with
      player :=
        { cell := convertLatLngToGrid OAKES_LAT OAKES_LNG,
          inventory := [],
          movementHistory := [(OAKES_LAT, OAKES_LNG)] },
      selectedCoin := none,
      cacheStorage := st.originalCacheStorage }

/-- Embedding of the full `reset` control flow: the state reset followed by
`regenerateCaches` (the `saveGameState` call writes to external storage and
does not change the session state). -/
def resetFull (st : GameState) (supply : Nat → Nat) (k : Nat) :
    Option (GameState × List Cache × Nat) :=
  regenerateCaches (resetState st) supply k

/-! ## Persistence layer (`localStorage` and `loadGameState`) -/

/-- External `localStorage` contents, as key-value pairs. -/
structure Storage where
  items : List (String × String)
deriving DecidableEq, Repr

/-- `localStorage.getItem`: the stored string, or `null` when absent. -/
def Storage.getItem (s : Storage) (k : String) : Option String :=
  mapGet s.items k

/-- Consume a maximal run of decimal digits (most significant first). -/
def takeDigits : List Char → List Nat × List Char
  | [] => ([], [])
  | c :: cs =>
    if 48 ≤ c.toNat ∧ c.toNat ≤ 57 then
      let p := takeDigits cs
      ((c.toNat - 48) :: p.1, p.2)
    else ([], c :: cs)

/-- Numeric value of a digit run. -/
def digitsVal (ds : List Nat) : Nat :=
  ds.foldl (fun a d => a * 10 + d) 0

/-- Parse a JSON integer: an optional minus sign and a digit run. -/
def parseIntNum (cs : List Char) : Option (Int × List Char) :=
  match cs with
  | '-' :: cs1 =>
    match takeDigits cs1 with
    | ([], _) => none
    | (ds, r) => some (-(digitsVal ds : Int), r)
  | _ =>
    match takeDigits cs with
    | ([], _) => none
    | (ds, r) => some ((digitsVal ds : Int), r)

/-- Parse a JSON decimal number into an exact fixed-point coordinate; digits
beyond the 14 representable fractional places are truncated, and exponent
notation (which the app's own saves never contain) is a failure. -/
def parseCoordNum (cs : List Char) : Option (Coord × List Char) :=
  let sign :=
    match cs with
    | '-' :: cs1 => (true, cs1)
    | _ => (false, cs)
  match takeDigits sign.2 with
  | ([], _) => none
  | (ds, r) =>
    match r with
    | '.' :: r0 =>
      match takeDigits r0 with
      | ([], _) => none
      | (fds, r1) =>
        let fds14 := fds.take 14 ++ List.replicate (14 - min fds.length 14) 0
        let mag : Int := (digitsVal ds) * 10 ^ 14 + digitsVal fds14
        some (if sign.1 then -mag else mag, r1)
    | _ =>
      let mag : Int := (digitsVal ds) * 10 ^ 14
      some (if sign.1 then -mag else mag, r)

/-- Modelled `JSON.parse` plus `const [i, j] = ...` for the saved player cell:
a two-element JSON array of integers; every other saved shape is a failure. -/
def parseCellSaved (m : String) : Option (Int × Int) :=
  match m.data with
  | '[' :: cs =>
    match parseIntNum cs with
    | some (i, ',' :: cs1) =>
      match parseIntNum cs1 with
      | some (j, ']' :: cs2) => if cs2 = [] then some (i, j) else none
      | _ => none
    | _ => none
  | _ => none

/-- Parse one `[lat, lng]` coordinate pair. -/
def parseCoordPair (cs : List Char) : Option ((Coord × Coord) × List Char) :=
  match cs with
  | '[' :: cs0 =>
    match parseCoordNum cs0 with
    | some (a, ',' :: cs1) =>
      match parseCoordNum cs1 with
      | some (b, ']' :: cs2) => some ((a, b), cs2)
      | _ => none
    | _ => none
  | _ => none

/-- Parse the comma-separated coordinate pairs of a saved movement history,
consuming the closing bracket (fuel-bounded recursion). -/
def parsePairsAux : Nat → List Char → Option (List (Coord × Coord) × List Char)
  | 0, _ => none
  | fuel + 1, cs =>
    match parseCoordPair cs with
    | some (p, ',' :: cs1) =>
      (parsePairsAux fuel cs1).map (fun q => (p :: q.1, q.2))
    | some (p, ']' :: cs1) => some ([p], cs1)
    | _ => none

/-- Modelled `JSON.parse` for the saved movement history: an array of
two-element number arrays. -/
def parseHistorySaved (m : String) : Option (List (Coord × Coord)) :=
  match m.data with
  | '[' :: cs =>
    match cs with
    | ']' :: cs1 => if cs1 = [] then some [] else none
    | _ =>
      match parsePairsAux cs.length cs with
      | some (ps, r) => if r = [] then some ps else none
      | none => none
  | _ => none

/-- Parse the members of a saved `cacheStorage` JSON object (string keys,
string values), consuming the closing brace (fuel-bounded recursion). -/
def parseMembersAux : Nat → List Char → Option (List (String × String) × List Char)
  | 0, _ => none
  | fuel + 1, cs =>
    match parseJString cs with
    | some (k, ':' :: cs1) =>
      match parseJString cs1 with
      | some (v, ',' :: cs2) =>
        (parseMembersAux fuel cs2).map
          (fun q => ((String.mk k, String.mk v) :: q.1, q.2))
      | some (v, c :: cs2) =>
        if c = Char.ofNat 125 then some ([(String.mk k, String.mk v)], cs2)
        else none
      | _ => none
    | _ => none

/-- Modelled `JSON.parse` for a saved `cacheStorage`: a JSON object with
string values (the per-cell mementos). -/
def parseCacheStorageSaved (m : String) : Option (List (String × String)) :=
  match m.data with
  | c :: cs =>
    if c = Char.ofNat 123 then
      match cs with
      | c2 :: cs1 =>
        if c2 = Char.ofNat 125 then (if cs1 = [] then some [] else none)
        else
          match parseMembersAux cs.length cs with
          | some (kvs, r) => if r = [] then some kvs else none
          | none => none
      | [] => none
    else none
  | [] => none

/-- Embedding of `Player.loadState`: in source order, each present field is
`JSON.parse`d and assigned; an absent field leaves the current value; a parse
failure is an uncaught exception (`Except.error`), aborting the remaining
loads with the partially updated player. -/
def Player.loadState (p : Player) (storage : Storage) : Except Player Player :=
  let step1 : Except Player Player :=
    match storage.getItem "playerCell" with
    | none => .ok p
    | some saved =>
      match parseCellSaved saved with
      | some ij => .ok { p with cell := ⟨ij.1, ij.2⟩ }
      | none => .error p
  match step1 with
  | .error p1 => .error p1
  | .ok p1 =>
    let step2 : Except Player Player :=
      match storage.getItem "playerInventory" with
      | none => .ok p1
      | some saved =>
        match parseStringList saved with
        | some inv => .ok { p1 with inventory := inv }
        | none => .error p1
    match step2 with
    | .error p2 => .error p2
    | .ok p2 =>
      match storage.getItem "movementHistory" with
      | none => .ok p2
      | some saved =>
        match parseHistorySaved saved with
        | some hist => .ok { p2 with movementHistory := hist }
        | none => .error p2

/-- Embedding of `loadGameState`: `player.loadState()` first, then the saved
`cacheStorage` object is parsed and merged key by key into the cache-memento
map; an uncaught parse exception aborts the remaining loads (`Except.error`
carries the state reached when it was thrown). -/
def loadGameState (st : GameState) (storage : Storage) :
    Except GameState GameState :=
  match st.player.loadState storage with
  | .error p => .error { st with player := p }
  | .ok p =>
    let st1 := { st with player := p }
    match storage.getItem "cacheStorage" with
    | none => .ok st1
    | some saved =>
      match parseCacheStorageSaved saved with
      | some entries =>
        .ok { st1 with
                cacheStorage :=
                  entries.foldl (fun m kv => mapSet m kv.1 kv.2) st1.cacheStorage }
      | none => .error st1

/-! ## Model of `src/unnamed/part_000` (the earlier evolution)

Coins are records of originating cell and serial; the cache store maps cell
keys to cache records; the inventory is a bare count; window regeneration
consults the store first and the spawn guard only for absent cells. -/

/-- A part_000 coin: originating cell and serial number. -/
structure CoinP where
  cell : Cell
  serial : Nat
deriving DecidableEq, Repr

/-- A part_000 cache: its cell and its coin records. -/
structure CacheP where
  cell : Cell
  coins : List CoinP
deriving DecidableEq, Repr

/-- Embedding of part_000's `getCell` on exact fixed-point coordinates:
`Math.floor(lat * 1e4)` is `Int.fdiv` of the scaled unit count (the flyweight
table only affects object identity, not values). -/
def getCellP (lat lng : Coord) : Cell :=
  ⟨Int.fdiv lat TILE_UNITS, Int.fdiv lng TILE_UNITS⟩

/-- The part_000 session state: the inventory count, the player position in
fixed-point coordinates, and the `cacheState` store. -/
structure StateP where
  playerInventoryCount : Nat
  playerLat : Coord
  playerLng : Coord
  cacheState : List (String × CacheP)
deriving DecidableEq, Repr

/-- Embedding of part_000's `saveCacheState`: store under `"i:j"` of the
cache's cell. -/
def saveCacheState (st : StateP) (cache : CacheP) : StateP :=
  { st with cacheState := mapSet st.cacheState cache.cell.toKey cache }

/-- Embedding of part_000's `getCacheState`: `cacheState[key] || null`. -/
def getCacheState (st : StateP) (cell : Cell) : Option CacheP :=
  mapGet st.cacheState cell.toKey

/-- Embedding of part_000's `spawnTreasure i j` (state effect and the popup
cache): recompute the cell from the player position offset by `(i, j)` grid
steps, reuse the stored cache when present, otherwise create
`Math.floor(Math.random() * 5) + 1` coin records from the supply at `k` and
save the new cache. -/
def spawnTreasure (st : StateP) (supply : Nat → Nat) (k : Nat) (i j : Int) :
    StateP × CacheP × Nat :=
  let cell := getCellP (st.playerLat + i * TILE_UNITS) (st.playerLng + j * TILE_UNITS)
  match getCacheState st cell with
  | some cache => (st, cache, k)
  | none =>
    let numberOfTreasures := supply k % 5 + 1
    let coins := (List.range numberOfTreasures).map (fun serial => CoinP.mk cell serial)
    let cache : CacheP := ⟨cell, coins⟩
    (saveCacheState st cache, cache, k + 1)

/-- The part_000 `regenerateCaches` loop body over explicit window offsets
`(di, dj)` relative to the player cell: a stored cache is included as is
(without consulting the spawn guard); an absent cell is spawned exactly when
the guard approves.  The output pairs each included popup cache with the
looked-up cell key. -/
def regenCellsP (offsets : List (Int × Int)) (st : StateP) (supply : Nat → Nat)
    (k : Nat) : StateP × List (String × CacheP) × Nat :=
  match offsets with
  | [] => (st, [], k)
  | (di, dj) :: rest =>
    let playerCell := getCellP st.playerLat st.playerLng
    let cell : Cell := ⟨playerCell.i + di, playerCell.j + dj⟩
    match getCacheState st cell with
    | some cache =>
      let r := regenCellsP rest st supply k
      (r.1, (cell.toKey, cache) :: r.2.1, r.2.2)
    | none =>
      if shouldSpawn cell.i cell.j then
        let s := spawnTreasure st supply k (cell.i - playerCell.i) (cell.j - playerCell.j)
        let r := regenCellsP rest s.1 supply s.2.2
        (r.1, (cell.toKey, s.2.1) :: r.2.1, r.2.2)
      else regenCellsP rest st supply k

/-- `SEARCH_RADIUS` of the part_000 visibility window. -/
def SEARCH_RADIUS : Nat := 8

/-- The row-major window offsets `-r ≤ di, dj ≤ r` of part_000's nested
loops. -/
def windowOffsets (r : Nat) : List (Int × Int) :=
  (List.range (2 * r + 1)).flatMap (fun di =>
    (List.range (2 * r + 1)).map (fun dj =>
      ((di : Int) - r, (dj : Int) - r)))

/-- Embedding of part_000's `regenerateCaches`: scan the window around the
player's cell, including stored caches and spawning approved absent ones. -/
def regenerateCachesP (st : StateP) (supply : Nat → Nat) (k : Nat) :
    StateP × List (String × CacheP) × Nat :=
  regenCellsP (windowOffsets SEARCH_RADIUS) st supply k

/-- Embedding of part_000's popup collect handler: increment the inventory
count unconditionally and `splice(index, 1)` the coin list (an out-of-range
index removes nothing but still counts). -/
def collectP (st : StateP) (cache : CacheP) (index : Nat) :
    StateP × CacheP :=
  let cache1 : CacheP := { cache with coins := cache.coins.eraseIdx index }
  (saveCacheState { st with playerInventoryCount := st.playerInventoryCount + 1 } cache1,
   cache1)

/-- Embedding of part_000's popup deposit handler: with a positive inventory
count, append a fresh coin record whose serial is the current list length
(`{ cell, serial: cache.coins.length }`); otherwise only an alert is shown. -/
def depositP (st : StateP) (cache : CacheP) : StateP × CacheP :=
  if st.playerInventoryCount > 0 then
    let newCoin : CoinP := ⟨cache.cell, cache.coins.length⟩
    let cache1 : CacheP := { cache with coins := cache.coins ++ [newCoin] }
    (saveCacheState { st with playerInventoryCount := st.playerInventoryCount - 1 } cache1,
     cache1)
  else (st, cache)

/-! ## Helper lemmas on the map model and coin counting -/

theorem find_set_self {α : Type} (m : List (String × α)) (k : String) (v : α)
    (hany : m.any (fun p => p.1 = k) = true) :
    (m.map (fun p => if p.1 = k then (k, v) else p)).find? (fun p => p.1 = k)
      = some (k, v) := by
  induction m with
  | nil => simp at hany
  | cons hd tl ih =>
    by_cases hhd : hd.1 = k
    · rw [List.map_cons, if_pos hhd, List.find?_cons_of_pos _ (by simp)]
    · simp only [List.any_cons, Bool.or_eq_true, decide_eq_true_eq] at hany
      have htl := hany.resolve_left hhd
      rw [List.map_cons, if_neg hhd, List.find?_cons_of_neg _ (by simp [hhd]),
        ih (by simpa using htl)]

theorem find_set_ne {α : Type} (m : List (String × α)) (k kq : String) (v : α)
    (hne : kq ≠ k) :
    (m.map (fun p => if p.1 = k then (k, v) else p)).find? (fun p => p.1 = kq)
      = m.find? (fun p => p.1 = kq) := by
  induction m with
  | nil => rfl
  | cons hd tl ih =>
    rw [List.map_cons]
    by_cases hhd : hd.1 = k
    · rw [if_pos hhd]
      rw [List.find?_cons_of_neg _ (by simp [Ne.symm hne]),
        List.find?_cons_of_neg _ (by simp [hhd, Ne.symm hne]), ih]
    · rw [if_neg hhd]
      by_cases hq : hd.1 = kq
      · rw [List.find?_cons_of_pos _ (by simp [hq]),
          List.find?_cons_of_pos _ (by simp [hq])]
      · rw [List.find?_cons_of_neg _ (by simp [hq]),
          List.find?_cons_of_neg _ (by simp [hq]), ih]

/-- JS `Map.set` then `Map.get`, combined: reading the written key sees the
new value, every other key is untouched. -/
theorem mapGet_mapSet {α : Type} (m : List (String × α)) (k kq : String) (v : α) :
    mapGet (mapSet m k v) kq = if kq = k then some v else mapGet m kq := by
  rw [mapSet]
  by_cases hany : m.any (fun p => p.1 = k)
  · rw [if_pos hany]
    by_cases hq : kq = k
    · subst hq
      rw [if_pos rfl, mapGet, find_set_self m kq v hany]
      rfl
    · rw [if_neg hq, mapGet, mapGet, find_set_ne m k kq v hq]
  · rw [if_neg hany]
    rw [mapGet, mapGet, List.find?_append]
    by_cases hq : kq = k
    · subst hq
      have hnone : m.find? (fun p => p.1 = kq) = none := by
        rw [List.find?_eq_none]
        intro p hp
        simp only [decide_eq_true_eq]
        intro hpk
        exact hany (List.any_eq_true.mpr ⟨p, hp, by simp [hpk]⟩)
      simp [hnone, List.find?, if_pos rfl]
    · cases hfind : m.find? (fun p => p.1 = kq) with
      | some p => simp [hfind, hq]
      | none => simp [hfind, List.find?, hq, Ne.symm hq]

/-- Writing an absent key preserves every present binding. -/
theorem mapGet_mapSet_of_none {α : Type} (m : List (String × α))
    (k kq : String) (v w : α) (habsent : mapGet m k = none)
    (hpresent : mapGet m kq = some w) : mapGet (mapSet m k v) kq = some w := by
  have hne : kq ≠ k := by
    intro h
    rw [h, habsent] at hpresent
    exact absurd hpresent (by simp)
  rw [mapGet_mapSet, if_neg hne]
  exact hpresent

/-- Counting after `splice(index, 1)`: the removed occurrence is accounted by
the element at the spliced position. -/
theorem count_eraseIdx (l : List String) (n : Nat) (h : n < l.length) (x : String) :
    (l.eraseIdx n).count x + (if l.get ⟨n, h⟩ = x then 1 else 0) = l.count x := by
  rw [List.eraseIdx_eq_take_drop_succ, List.count_append]
  conv_rhs => rw [← List.take_append_drop n l, List.drop_eq_getElem_cons h]
  rw [List.count_append, List.count_cons]
  have hg : l.get ⟨n, h⟩ = l[n] := rfl
  by_cases hx : l[n] = x
  · simp [hg, hx]
    omega
  · simp [hg, hx]

/-- A splice decomposes the list into the removed element and the rest, up to
permutation. -/
theorem perm_eraseIdx (l : List String) (n : Nat) (h : n < l.length) :
    l.Perm (l.get ⟨n, h⟩ :: l.eraseIdx n) := by
  conv_lhs => rw [← List.take_append_drop n l, List.drop_eq_getElem_cons h]
  rw [List.eraseIdx_eq_take_drop_succ]
  exact List.perm_middle

/-- Filtering out a coin leaves none of it. -/
theorem count_filter_self (l : List String) (c : String) :
    (l.filter (fun x => x ≠ c)).count c = 0 := by
  rw [List.count_eq_zero]
  intro hc
  have := List.of_mem_filter hc
  simp at this

/-- Filtering out one coin keeps every other coin's count. -/
theorem count_filter_other (l : List String) (c d : String) (hne : d ≠ c) :
    (l.filter (fun x => x ≠ c)).count d = l.count d := by
  induction l with
  | nil => rfl
  | cons hd tl ih =>
    rw [List.filter_cons]
    by_cases hhd : hd = c
    · rw [if_neg (by simp [hhd]), ih, List.count_cons]
      simp [hhd]
      exact fun h => hne h.symm
    · rw [if_pos (by simp [hhd]), List.count_cons, List.count_cons, ih]

/-! ## Claim C7 — snapshot/restore round-trip -/

/-- C7: for every cell and coin list `L`, restoring a cache from the snapshot
of a cache holding `L` (`new Cache(cell, [])` followed by
`fromMemento(toMemento)`) yields a cache whose coin list is exactly `L`:
snapshot followed by restore is the identity on coin lists and never re-rolls
content. -/
theorem C7_snapshot_restore_roundtrip (cell cell2 : Cell) (L : List String) :
    Cache.fromMemento ⟨cell, []⟩ (Cache.toMemento ⟨cell2, L⟩) = some ⟨cell, L⟩ := by
  rw [Cache.toMemento, Cache.fromMemento, parseStringList_serialize]
  rfl

/-! ## Claim C10 — `Player.removeCoin` removes all occurrences -/

/-- C10: `Player.removeCoin` is a filter, so it deletes every occurrence of
the given coin (its count drops to zero and any other coin keeps its count),
a coin not present leaves the inventory unchanged, and the deposit handler
appends exactly one coin to the cache. -/
theorem C10_removeCoin_filter (p : Player) (c d : String) (st : GameState)
    (cache : Cache) (coin : String) (hsel : st.selectedCoin = some coin) :
    (p.removeCoin c).inventory.count c = 0 ∧
    ((p.removeCoin c).inventory.count d
      = if d = c then 0 else p.inventory.count d) ∧
    (c ∉ p.inventory → (p.removeCoin c).inventory = p.inventory) ∧
    (deposit st cache).2.coins.length = cache.coins.length + 1 := by
  refine ⟨count_filter_self _ _, ?_, ?_, ?_⟩
  · by_cases hd : d = c
    · rw [if_pos hd, hd]
      exact count_filter_self p.inventory c
    · rw [if_neg hd]
      exact count_filter_other p.inventory c d hd
  · intro hc
    show p.inventory.filter (fun x => x ≠ c) = p.inventory
    refine List.filter_eq_self.mpr (fun x hx => ?_)
    rw [decide_eq_true_eq]
    exact fun h => hc (h ▸ hx)
  · rw [deposit, hsel]
    simp [Cache.addCoin]

/-- C10 witness: the theorem applied to an inventory holding the coin twice. -/
theorem C10_removeCoin_filter_witness :
    ((Player.mk ⟨0, 0⟩ ["0:0#1", "0:0#0", "0:0#1"] []).removeCoin
        "0:0#1").inventory.count "0:0#1" = 0 ∧
    (((Player.mk ⟨0, 0⟩ ["0:0#1", "0:0#0", "0:0#1"] []).removeCoin
        "0:0#1").inventory.count "0:0#0"
      = if "0:0#0" = "0:0#1" then 0
        else (Player.mk ⟨0, 0⟩ ["0:0#1", "0:0#0", "0:0#1"] []).inventory.count "0:0#0") ∧
    ("0:0#1" ∉ (Player.mk ⟨0, 0⟩ ["0:0#1", "0:0#0", "0:0#1"] []).inventory →
      ((Player.mk ⟨0, 0⟩ ["0:0#1", "0:0#0", "0:0#1"] []).removeCoin
        "0:0#1").inventory = (Player.mk ⟨0, 0⟩ ["0:0#1", "0:0#0", "0:0#1"] []).inventory) ∧
    (deposit ⟨⟨⟨0, 0⟩, ["5:5#0"], []⟩, [], [], some "5:5#0"⟩
        ⟨⟨0, 0⟩, ["0:0#0"]⟩).2.coins.length
      = (Cache.mk ⟨0, 0⟩ ["0:0#0"]).coins.length + 1 :=
  C10_removeCoin_filter (Player.mk ⟨0, 0⟩ ["0:0#1", "0:0#0", "0:0#1"] [])
    "0:0#1" "0:0#0" ⟨⟨⟨0, 0⟩, ["5:5#0"], []⟩, [], [], some "5:5#0"⟩
    ⟨⟨0, 0⟩, ["0:0#0"]⟩ "5:5#0" rfl

/-! ## Claim C5 — collect on an out-of-range index -/

/-- C5 counterexample: collecting at index `-1` from a one-coin cache does not
fail and does not leave state unchanged — JavaScript `splice(-1, 1)` removes
the last coin, which lands in the player's inventory and is re-persisted. -/
theorem C5_collect_negative_index_counterexample :
    (collect ⟨⟨⟨2, 2⟩, [], []⟩, [("2:2", serializeStringList ["2:2#0"])], [], none⟩
        ⟨⟨2, 2⟩, ["2:2#0"]⟩ (-1)).2.coins = [] ∧
    (collect ⟨⟨⟨2, 2⟩, [], []⟩, [("2:2", serializeStringList ["2:2#0"])], [], none⟩
        ⟨⟨2, 2⟩, ["2:2#0"]⟩ (-1)).1.player.inventory = ["2:2#0"] := by
  constructor <;> rfl

/-- C5 amended: for every index at or beyond the coin-list length (the
non-negative out-of-range indices), collect returns no coin and every piece of
state — the cache's coin list, the inventory, and the stored mementos — is
exactly as before; the failure is silent (the handler shows no report), and
negative indices instead follow JavaScript splice clamping, so an in-range
negative index removes a coin. -/
theorem C5_collect_out_of_range (st : GameState) (cache : Cache) (index : Int)
    (h : (cache.coins.length : Int) ≤ index) :
    collect st cache index = (st, cache) := by
  have h0 : ¬ index < 0 := by
    intro hlt
    have := Int.ofNat_nonneg cache.coins.length
    omega
  have hstart : spliceStart index cache.coins.length = cache.coins.length := by
    rw [spliceStart, if_neg h0]
    have : cache.coins.length ≤ index.toNat := by omega
    omega
  rw [collect, Cache.removeCoin]
  simp only [hstart, lt_self_iff_false, reduceDIte]

/-- C5 witness: the out-of-range theorem applied at index 5 of a one-coin
cache. -/
theorem C5_collect_out_of_range_witness :
    ((Cache.mk ⟨2, 2⟩ ["2:2#0"]).coins.length : Int) ≤ 5 ∧
    collect ⟨⟨⟨2, 2⟩, [], []⟩, [("2:2", serializeStringList ["2:2#0"])], [], none⟩
        ⟨⟨2, 2⟩, ["2:2#0"]⟩ 5
      = (⟨⟨⟨2, 2⟩, [], []⟩, [("2:2", serializeStringList ["2:2#0"])], [], none⟩,
         ⟨⟨2, 2⟩, ["2:2#0"]⟩) :=
  ⟨by decide,
   C5_collect_out_of_range
     ⟨⟨⟨2, 2⟩, [], []⟩, [("2:2", serializeStringList ["2:2#0"])], [], none⟩
     ⟨⟨2, 2⟩, ["2:2#0"]⟩ 5 (by decide)⟩

/-! ## Claim C6 — serial assignment on deposit -/

/-- C6 counterexample: in main.ts, depositing the selected coin `"9:9#0"` into
the cache at (0,0) that holds one coin appends that very string — the coin
keeps its creation identity rather than receiving the receiving cache's
serial `coins.length = 1`. -/
theorem C6_deposit_keeps_identity_counterexample :
    (deposit ⟨⟨⟨0, 0⟩, ["9:9#0"], []⟩, [], [], some "9:9#0"⟩
        ⟨⟨0, 0⟩, ["0:0#0"]⟩).2.coins = ["0:0#0", "9:9#0"] ∧
    "9:9#0" ≠ generateCoinID ⟨0, 0⟩ 1 := by
  constructor
  · rfl
  · decide

/-- C6 amended: serial-on-deposit is the part_000 behaviour — its deposit
appends a fresh coin record with serial equal to the current list length,
which can duplicate the serial of a previously collected coin (shown
concretely: after collecting index 0 from a three-coin cache, a deposit mints
serial 2 a second time); the main.ts deposit instead appends the selected coin
string unchanged. -/
theorem C6_deposit_serial_assignment (st : StateP) (cache : CacheP)
    (hpos : 0 < st.playerInventoryCount) (st2 : GameState) (cache2 : Cache)
    (c : String) (hsel : st2.selectedCoin = some c) :
    (depositP st cache).2.coins
      = cache.coins ++ [⟨cache.cell, cache.coins.length⟩] ∧
    (deposit st2 cache2).2.coins = cache2.coins ++ [c] ∧
    ((depositP ⟨1, 0, 0, []⟩
        (collectP ⟨0, 0, 0, []⟩
          ⟨⟨0, 0⟩, [⟨⟨0, 0⟩, 0⟩, ⟨⟨0, 0⟩, 1⟩, ⟨⟨0, 0⟩, 2⟩]⟩ 0).2).2.coins.count
        ⟨⟨0, 0⟩, 2⟩ = 2) := by
  refine ⟨?_, ?_, by decide⟩
  · rw [depositP, if_pos hpos]
  · rw [deposit, hsel]
    rfl

/-- C6 witness: the amended theorem applied to a one-count part_000 inventory
and a selected main.ts coin. -/
theorem C6_deposit_serial_assignment_witness :
    (depositP ⟨1, 0, 0, []⟩ ⟨⟨0, 0⟩, [⟨⟨0, 0⟩, 0⟩]⟩).2.coins
      = (CacheP.mk ⟨0, 0⟩ [⟨⟨0, 0⟩, 0⟩]).coins
          ++ [⟨(CacheP.mk ⟨0, 0⟩ [⟨⟨0, 0⟩, 0⟩]).cell,
              (CacheP.mk ⟨0, 0⟩ [⟨⟨0, 0⟩, 0⟩]).coins.length⟩] ∧
    (deposit ⟨⟨⟨0, 0⟩, ["9:9#0"], []⟩, [], [], some "9:9#0"⟩
        ⟨⟨0, 0⟩, ["0:0#0"]⟩).2.coins = (Cache.mk ⟨0, 0⟩ ["0:0#0"]).coins ++ ["9:9#0"] ∧
    ((depositP ⟨1, 0, 0, []⟩
        (collectP ⟨0, 0, 0, []⟩
          ⟨⟨0, 0⟩, [⟨⟨0, 0⟩, 0⟩, ⟨⟨0, 0⟩, 1⟩, ⟨⟨0, 0⟩, 2⟩]⟩ 0).2).2.coins.count
        ⟨⟨0, 0⟩, 2⟩ = 2) :=
  C6_deposit_serial_assignment ⟨1, 0, 0, []⟩ ⟨⟨0, 0⟩, [⟨⟨0, 0⟩, 0⟩]⟩
    (by decide) ⟨⟨⟨0, 0⟩, ["9:9#0"], []⟩, [], [], some "9:9#0"⟩
    ⟨⟨0, 0⟩, ["0:0#0"]⟩ "9:9#0" rfl

/-! ## Claim C2 — conservation under collect/deposit -/

/-- Origin cell key of a coin id: the part of `"i:j#serial"` before the `#`
separator (the cell whose creation minted the coin). -/
def coinOrigin (coin : String) : String :=
  String.mk (coin.data.takeWhile (fun c => c ≠ '#'))

/-- The spec's conservation sum, literally: all coins in the cache plus the
inventory coins originating from that cache. -/
def specMeasure (cache : Cache) (inv : List String) : Nat :=
  cache.coins.length
    + (inv.filter (fun c => coinOrigin c = cache.cell.toKey)).length

/-- The origin-restricted conservation sum: the coins originating from `key`
held by the cache plus those held by the inventory. -/
def originMeasure (key : String) (cache : Cache) (inv : List String) : Nat :=
  (cache.coins.filter (fun c => coinOrigin c = key)).length
    + (inv.filter (fun c => coinOrigin c = key)).length

/-- Session invariant holding in every state the program itself reaches: the
selected coin (if any) is a rendered inventory coin, no coin id occurs twice
across the open cache and the inventory together, and no coin is the empty
string. -/
def ValidSession (s : GameState × Cache) : Prop :=
  s.1.selectedCoin.all (fun c => s.1.player.inventory.contains c) = true ∧
  (s.2.coins ++ s.1.player.inventory).Nodup ∧
  "" ∉ s.2.coins ++ s.1.player.inventory

instance (s : GameState × Cache) : Decidable (ValidSession s) := by
  unfold ValidSession
  infer_instance

/-- Monotonicity of the selected-coin guard under inventory growth. -/
theorem option_all_mono {o : Option String} {p q : String → Bool}
    (h : o.all p = true) (himp : ∀ c, p c = true → q c = true) :
    o.all q = true := by
  cases o with
  | none => rfl
  | some c => exact himp c h

/-- One popup interaction preserves the session invariant and permutes the
joint coin pool of the open cache and the inventory: no coin is created and
none is destroyed. -/
theorem applyOp_perm (s : GameState × Cache) (op : PlayerOp)
    (hv : ValidSession s) :
    ValidSession (applyOp s op) ∧
    ((applyOp s op).2.coins ++ (applyOp s op).1.player.inventory).Perm
      (s.2.coins ++ s.1.player.inventory) := by
  obtain ⟨hsel, hnodup, hemp⟩ := hv
  match op with
  | .select coin =>
    simp only [applyOp]
    by_cases hmem : coin ∈ s.1.player.inventory
    · have hq : selectCoin s.1 coin = { s.1 with selectedCoin := some coin } := by
        rw [selectCoin, if_pos hmem]
      rw [hq]
      refine ⟨⟨by simpa [Option.all] using hmem, hnodup, hemp⟩, List.Perm.refl _⟩
    · have hq : selectCoin s.1 coin = s.1 := by
        rw [selectCoin, if_neg hmem]
      rw [hq]
      exact ⟨⟨hsel, hnodup, hemp⟩, List.Perm.refl _⟩
  | .deposit =>
    simp only [applyOp]
    cases hs : s.1.selectedCoin with
    | none =>
      have hq : deposit s.1 s.2 = (s.1, s.2) := by rw [deposit, hs]
      rw [hq]
      exact ⟨⟨hsel, hnodup, hemp⟩, List.Perm.refl _⟩
    | some coin =>
      have hq : deposit s.1 s.2
          = ({ s.1 with
                player := s.1.player.removeCoin coin,
                selectedCoin := none,
                cacheStorage := mapSet s.1.cacheStorage s.2.cell.toKey
                  (s.2.addCoin coin).toMemento },
             s.2.addCoin coin) := by
        rw [deposit, hs]
      rw [hs] at hsel
      have hmem : coin ∈ s.1.player.inventory := by simpa [Option.all] using hsel
      have hinv_nodup : s.1.player.inventory.Nodup := hnodup.of_append_right
      have hone : s.1.player.inventory.count coin = 1 :=
        List.count_eq_one_of_mem hinv_nodup hmem
      have hperm :
          ((s.2.coins ++ [coin])
              ++ s.1.player.inventory.filter (fun x => x ≠ coin)).Perm
            (s.2.coins ++ s.1.player.inventory) := by
        rw [List.append_assoc]
        refine List.Perm.append_left s.2.coins ?_
        rw [List.singleton_append, List.perm_iff_count]
        intro a
        by_cases ha : a = coin
        · subst ha
          rw [List.count_cons_self, count_filter_self, hone]
        · rw [List.count_cons_of_ne ha, count_filter_other _ _ _ ha]
      rw [hq]
      exact ⟨⟨rfl, hperm.symm.nodup hnodup, fun hc => hemp (hperm.mem_iff.mp hc)⟩, hperm⟩
  | .collect index =>
    simp only [applyOp]
    by_cases hlt : spliceStart index s.2.coins.length < s.2.coins.length
    · have hmemc : s.2.coins.get ⟨spliceStart index s.2.coins.length, hlt⟩ ∈ s.2.coins :=
        List.get_mem _ _ _
      have hcoin_ne : ¬ s.2.coins.get ⟨spliceStart index s.2.coins.length, hlt⟩ = "" := by
        intro h
        exact hemp (List.mem_append_left _ (h ▸ hmemc))
      have hq : collect s.1 s.2 index
          = ({ s.1 with
                player := s.1.player.addCoin
                  (s.2.coins.get ⟨spliceStart index s.2.coins.length, hlt⟩),
                cacheStorage := mapSet s.1.cacheStorage s.2.cell.toKey
                  (Cache.mk s.2.cell
                    (s.2.coins.eraseIdx (spliceStart index s.2.coins.length))).toMemento },
             Cache.mk s.2.cell
               (s.2.coins.eraseIdx (spliceStart index s.2.coins.length))) := by
        rw [collect, Cache.removeCoin, dif_pos hlt, if_neg hcoin_ne]
      have hperm :
          ((s.2.coins.eraseIdx (spliceStart index s.2.coins.length)
              ++ (s.1.player.inventory
                    ++ [s.2.coins.get ⟨spliceStart index s.2.coins.length, hlt⟩]))).Perm
            (s.2.coins ++ s.1.player.inventory) := by
        rw [← List.append_assoc]
        refine (List.perm_append_singleton _ _).trans ?_
        exact ((perm_eraseIdx s.2.coins _ hlt).append_right s.1.player.inventory).symm
      rw [hq]
      refine ⟨⟨?_, hperm.symm.nodup hnodup, fun hc => hemp (hperm.mem_iff.mp hc)⟩, hperm⟩
      refine option_all_mono hsel (fun c hc => ?_)
      simp only [Player.addCoin]
      simp at hc ⊢
      exact Or.inl hc
    · have hq : collect s.1 s.2 index = (s.1, s.2) := by
        rw [collect, Cache.removeCoin, dif_neg hlt]
      rw [hq]
      exact ⟨⟨hsel, hnodup, hemp⟩, List.Perm.refl _⟩

/-- Interaction sequences preserve the invariant and permute the joint coin
pool. -/
theorem runOps_perm (ops : List PlayerOp) (s : GameState × Cache)
    (hv : ValidSession s) :
    ValidSession (runOps s ops) ∧
    ((runOps s ops).2.coins ++ (runOps s ops).1.player.inventory).Perm
      (s.2.coins ++ s.1.player.inventory) := by
  induction ops generalizing s with
  | nil => exact ⟨hv, List.Perm.refl _⟩
  | cons op ops ih =>
    have h1 := applyOp_perm s op hv
    have h2 := ih (applyOp s op) h1.1
    exact ⟨h2.1, h2.2.trans h1.2⟩

/-- C2 amended: over every collect/deposit/select sequence from a state
satisfying the session invariant, the joint coin pool of the open cache and
the inventory is conserved per coin id — no coin is duplicated and none is
lost — and consequently the origin-restricted sum (coins originating from any
given cell, in the cache plus in the inventory) is conserved.  The spec's
literal sum `|cache.coins| + |inventory coins from that cache|` counts every
cache coin regardless of origin and is not conserved when a foreign-origin
coin is deposited. -/
theorem C2_conservation (ops : List PlayerOp) (s : GameState × Cache)
    (hv : ValidSession s) :
    (∀ id : String,
      (runOps s ops).2.coins.count id
          + (runOps s ops).1.player.inventory.count id
        = s.2.coins.count id + s.1.player.inventory.count id) ∧
    (∀ key : String,
      originMeasure key (runOps s ops).2 (runOps s ops).1.player.inventory
        = originMeasure key s.2 s.1.player.inventory) := by
  have h := (runOps_perm ops s hv).2
  constructor
  · intro id
    have hc := h.count_eq id
    rwa [List.count_append, List.count_append] at hc
  · intro key
    have hc := h.countP_eq (fun c => coinOrigin c = key)
    rw [List.countP_append, List.countP_append, List.countP_eq_length_filter,
      List.countP_eq_length_filter, List.countP_eq_length_filter,
      List.countP_eq_length_filter] at hc
    exact hc

/-- C2 counterexample: the spec's literal sum is not conserved by a deposit of
a foreign-origin coin.  The starting state satisfies the session invariant —
the cache at (0,0) holds its own coin and the selected inventory coin was
collected from (9,9) — yet the deposit grows `|cache.coins|` without changing
the origin-filtered inventory count. -/
theorem C2_specMeasure_counterexample :
    ValidSession (⟨⟨⟨0, 0⟩, ["9:9#0"], []⟩, [], [], some "9:9#0"⟩,
      ⟨⟨0, 0⟩, ["0:0#0"]⟩) ∧
    specMeasure
        (runOps (⟨⟨⟨0, 0⟩, ["9:9#0"], []⟩, [], [], some "9:9#0"⟩,
          ⟨⟨0, 0⟩, ["0:0#0"]⟩) [PlayerOp.deposit]).2
        (runOps (⟨⟨⟨0, 0⟩, ["9:9#0"], []⟩, [], [], some "9:9#0"⟩,
          ⟨⟨0, 0⟩, ["0:0#0"]⟩) [PlayerOp.deposit]).1.player.inventory
      ≠ specMeasure ⟨⟨0, 0⟩, ["0:0#0"]⟩ ["9:9#0"] := by
  constructor
  · decide
  · decide

/-- C2 witness: the conservation theorem applied to a session that collects a
coin, selects it, and deposits it back, checked at coin id `"0:0#0"` and at
origin key `"0:0"`. -/
theorem C2_conservation_witness :
    ((runOps (⟨⟨⟨0, 0⟩, ["9:9#0"], []⟩, [], [], none⟩,
          ⟨⟨0, 0⟩, ["0:0#0", "0:0#1"]⟩)
        [PlayerOp.collect 0, PlayerOp.select "0:0#0", PlayerOp.deposit]).2.coins.count "0:0#0"
        + (runOps (⟨⟨⟨0, 0⟩, ["9:9#0"], []⟩, [], [], none⟩,
          ⟨⟨0, 0⟩, ["0:0#0", "0:0#1"]⟩)
        [PlayerOp.collect 0, PlayerOp.select "0:0#0", PlayerOp.deposit]).1.player.inventory.count "0:0#0"
      = (Cache.mk ⟨0, 0⟩ ["0:0#0", "0:0#1"]).coins.count "0:0#0"
          + (Player.mk ⟨0, 0⟩ ["9:9#0"] []).inventory.count "0:0#0") ∧
    (originMeasure "0:0"
        (runOps (⟨⟨⟨0, 0⟩, ["9:9#0"], []⟩, [], [], none⟩,
          ⟨⟨0, 0⟩, ["0:0#0", "0:0#1"]⟩)
        [PlayerOp.collect 0, PlayerOp.select "0:0#0", PlayerOp.deposit]).2
        (runOps (⟨⟨⟨0, 0⟩, ["9:9#0"], []⟩, [], [], none⟩,
          ⟨⟨0, 0⟩, ["0:0#0", "0:0#1"]⟩)
        [PlayerOp.collect 0, PlayerOp.select "0:0#0", PlayerOp.deposit]).1.player.inventory
      = originMeasure "0:0" ⟨⟨0, 0⟩, ["0:0#0", "0:0#1"]⟩ ["9:9#0"]) :=
  ⟨(C2_conservation
      [PlayerOp.collect 0, PlayerOp.select "0:0#0", PlayerOp.deposit]
      (⟨⟨⟨0, 0⟩, ["9:9#0"], []⟩, [], [], none⟩, ⟨⟨0, 0⟩, ["0:0#0", "0:0#1"]⟩)
      (by decide)).1 "0:0#0",
   (C2_conservation
      [PlayerOp.collect 0, PlayerOp.select "0:0#0", PlayerOp.deposit]
      (⟨⟨⟨0, 0⟩, ["9:9#0"], []⟩, [], [], none⟩, ⟨⟨0, 0⟩, ["0:0#0", "0:0#1"]⟩)
      (by decide)).2 "0:0"⟩

/-! ## Claim C9 — malformed persisted data -/

/-- C9 counterexample: with the saved player cell absent, a corrupt saved
inventory (`"###"`), and a valid saved movement history present, loading does
not fall back per field: the `JSON.parse` exception aborts the load with an
error, and the movement-history and cache-storage fields are never loaded. -/
theorem C9_malformed_counterexample :
    loadGameState ⟨⟨⟨0, 0⟩, [], []⟩, [], [], none⟩
        ⟨[("playerInventory", "###"), ("movementHistory", "[[1,2]]")]⟩
      = Except.error ⟨⟨⟨0, 0⟩, [], []⟩, [], [], none⟩ := by
  rfl

/-- C9 amended: the silent fallback to defaults applies only to absent fields
(missing persistence is first-run): loading from empty storage returns the
state unchanged with no error.  A present but unparseable field instead
raises: with the saved player cell absent and a corrupt saved inventory,
`loadGameState` returns an error carrying the state as of the throw, so the
fields after the failing one are not loaded regardless of what the storage
holds for them. -/
theorem C9_load_fallback_vs_error (st : GameState) (storage : Storage)
    (v : String) (h1 : storage.getItem "playerCell" = none)
    (h2 : storage.getItem "playerInventory" = some v)
    (h3 : parseStringList v = none) :
    loadGameState st ⟨[]⟩ = Except.ok st ∧
    loadGameState st storage = Except.error st := by
  constructor
  · rfl
  · simp only [loadGameState, Player.loadState, h1, h2, h3]

/-- C9 witness: the amended theorem applied to a concrete state, empty
storage, and a storage holding only a corrupt inventory. -/
theorem C9_load_fallback_vs_error_witness :
    loadGameState ⟨⟨⟨3, 4⟩, ["0:0#0"], []⟩, [("k", "v")], [], none⟩ ⟨[]⟩
      = Except.ok ⟨⟨⟨3, 4⟩, ["0:0#0"], []⟩, [("k", "v")], [], none⟩ ∧
    loadGameState ⟨⟨⟨3, 4⟩, ["0:0#0"], []⟩, [("k", "v")], [], none⟩
        ⟨[("playerInventory", "oops")]⟩
      = Except.error ⟨⟨⟨3, 4⟩, ["0:0#0"], []⟩, [("k", "v")], [], none⟩ :=
  C9_load_fallback_vs_error ⟨⟨⟨3, 4⟩, ["0:0#0"], []⟩, [("k", "v")], [], none⟩
    ⟨[("playerInventory", "oops")]⟩ "oops" (by decide) (by decide) (by decide)

/-! ## Regeneration lemmas (main.ts) -/

/-- `spawnCache` never removes or overwrites an existing storage binding, and
never touches the player or the selection. -/
theorem spawnCache_effects (st : GameState) (supply : Nat → Nat) (k : Nat)
    (cell : Cell) (st1 : GameState) (cache : Cache) (k1 : Nat)
    (h : spawnCache st supply k cell = some (st1, cache, k1)) :
    st1.player = st.player ∧ st1.selectedCoin = st.selectedCoin ∧
    (∀ key v, mapGet st.cacheStorage key = some v →
      mapGet st1.cacheStorage key = some v) := by
  simp only [spawnCache] at h
  cases hstored : mapGet st.cacheStorage cell.toKey with
  | some m =>
    simp only [hstored] at h
    cases hfm : Cache.fromMemento ⟨cell, []⟩ m with
    | none =>
      simp only [hfm] at h
      exact absurd h (by simp)
    | some c2 =>
      simp only [hfm] at h
      simp only [Option.some.injEq, Prod.mk.injEq] at h
      obtain ⟨h1, -, -⟩ := h
      subst h1
      exact ⟨rfl, rfl, fun key v hv => hv⟩
  | none =>
    simp only [hstored] at h
    simp only [Option.some.injEq, Prod.mk.injEq] at h
    obtain ⟨h1, -, -⟩ := h
    subst h1
    exact ⟨rfl, rfl, fun key v hv => mapGet_mapSet_of_none _ _ _ _ _ hstored hv⟩

/-- The regeneration pass never touches the player or the selection and never
removes or overwrites an existing storage binding. -/
theorem regenCells_effects (cells : List Cell) :
    ∀ (st : GameState) (supply : Nat → Nat) (k : Nat) st2 out k2,
    regenCells cells st supply k = some (st2, out, k2) →
    st2.player = st.player ∧ st2.selectedCoin = st.selectedCoin ∧
    (∀ key v, mapGet st.cacheStorage key = some v →
      mapGet st2.cacheStorage key = some v) := by
  induction cells with
  | nil =>
    intro st supply k st2 out k2 h
    simp only [regenCells, Option.some.injEq, Prod.mk.injEq] at h
    obtain ⟨h1, -, -⟩ := h
    subst h1
    exact ⟨rfl, rfl, fun key v hv => hv⟩
  | cons cell rest ih =>
    intro st supply k st2 out k2 h
    rw [regenCells] at h
    by_cases hsp : shouldSpawn cell.i cell.j
    · rw [if_pos hsp] at h
      cases hspawn : spawnCache st supply k cell with
      | none =>
        simp only [hspawn] at h
        exact absurd h (by simp)
      | some r =>
        obtain ⟨st1, cache, k1⟩ := r
        simp only [hspawn] at h
        cases hrest : regenCells rest st1 supply k1 with
        | none =>
          simp only [hrest] at h
          exact absurd h (by simp)
        | some r2 =>
          obtain ⟨st2x, caches, k2x⟩ := r2
          simp only [hrest] at h
          simp only [Option.some.injEq, Prod.mk.injEq] at h
          obtain ⟨h1, -, -⟩ := h
          subst h1
          obtain ⟨hp1, hs1, hm1⟩ := spawnCache_effects st supply k cell st1 cache k1 hspawn
          obtain ⟨hp2, hs2, hm2⟩ := ih st1 supply k1 st2x caches k2x hrest
          exact ⟨hp2.trans hp1, hs2.trans hs1,
            fun key v hv => hm2 key v (hm1 key v hv)⟩
    · rw [if_neg hsp] at h
      exact ih st supply k st2 out k2 h

/-- Case analysis of a successful `spawnCache`: either the cell was stored and
its memento parses to the returned cache's coins (restore), or it was absent
and a fresh cache was created, persisted in both storages, consuming one
random draw. -/
theorem spawnCache_cases (st : GameState) (supply : Nat → Nat) (k : Nat)
    (cell : Cell) (st1 : GameState) (cache : Cache) (k1 : Nat)
    (h : spawnCache st supply k cell = some (st1, cache, k1)) :
    (∃ m coins, mapGet st.cacheStorage cell.toKey = some m ∧
       parseStringList m = some coins ∧ cache = ⟨cell, coins⟩ ∧
       st1 = st ∧ k1 = k) ∨
    (∃ coins,
       mapGet st.cacheStorage cell.toKey = none ∧
       coins = (List.range (supply k % 5 + 1)).map
         (fun serial => generateCoinID cell serial) ∧
       cache = ⟨cell, coins⟩ ∧
       st1 = { st with
         cacheStorage :=
           mapSet st.cacheStorage cell.toKey (serializeStringList coins),
         originalCacheStorage :=
           mapSet st.originalCacheStorage cell.toKey (serializeStringList coins) } ∧
       k1 = k + 1) := by
  simp only [spawnCache] at h
  cases hstored : mapGet st.cacheStorage cell.toKey with
  | some m =>
    simp only [hstored] at h
    cases hp : parseStringList m with
    | none =>
      rw [show Cache.fromMemento ⟨cell, []⟩ m = none by
        rw [Cache.fromMemento, hp]; rfl] at h
      exact absurd h (by simp)
    | some coins =>
      rw [show Cache.fromMemento ⟨cell, []⟩ m = some ⟨cell, coins⟩ by
        rw [Cache.fromMemento, hp]; rfl] at h
      simp only [Option.some.injEq, Prod.mk.injEq] at h
      obtain ⟨h1, h2, h3⟩ := h
      exact Or.inl ⟨m, coins, rfl, hp, h2.symm, h1.symm, h3.symm⟩
  | none =>
    simp only [hstored] at h
    simp only [Option.some.injEq, Prod.mk.injEq] at h
    obtain ⟨h1, h2, h3⟩ := h
    refine Or.inr ⟨(List.range (supply k % 5 + 1)).map
      (fun serial => generateCoinID cell serial), rfl, rfl, h2.symm, h1.symm, h3.symm⟩

/-- Introduction form of the restore branch of `spawnCache`: a stored cell
whose memento parses is materialized from the store without consuming a
random draw or changing state. -/
theorem spawnCache_stored (st : GameState) (supply : Nat → Nat) (k : Nat)
    (cell : Cell) (m : String) (coins : List String)
    (hst : mapGet st.cacheStorage cell.toKey = some m)
    (hp : parseStringList m = some coins) :
    spawnCache st supply k cell = some (st, ⟨cell, coins⟩, k) := by
  simp only [spawnCache, hst]
  rw [show Cache.fromMemento ⟨cell, []⟩ m = some ⟨cell, coins⟩ by
    rw [Cache.fromMemento, hp]; rfl]

/-- A second regeneration pass over the same cells, from the state the first
pass left, returns the same state and the same cache list (with any random
supply): every cache the first pass created is now stored, and restoring
parses the memento the first pass wrote. -/
theorem regenCells_idem (cells : List Cell) :
    ∀ (st : GameState) (supply : Nat → Nat) (k : Nat) (st1 : GameState)
      (out : List Cache) (k1 : Nat) (supply2 : Nat → Nat) (k2 : Nat),
    regenCells cells st supply k = some (st1, out, k1) →
    regenCells cells st1 supply2 k2 = some (st1, out, k2) := by
  induction cells with
  | nil =>
    intro st supply k st1 out k1 supply2 k2 h
    simp only [regenCells, Option.some.injEq, Prod.mk.injEq] at h
    obtain ⟨h1, h2, -⟩ := h
    subst h1
    subst h2
    rfl
  | cons cell rest ih =>
    intro st supply k st1 out k1 supply2 k2 h
    rw [regenCells] at h ⊢
    by_cases hsp : shouldSpawn cell.i cell.j
    · rw [if_pos hsp] at h ⊢
      cases hspawn : spawnCache st supply k cell with
      | none =>
        simp only [hspawn] at h
        exact absurd h (by simp)
      | some r =>
        obtain ⟨stA, cacheA, kA⟩ := r
        simp only [hspawn] at h
        cases hrest : regenCells rest stA supply kA with
        | none =>
          simp only [hrest] at h
          exact absurd h (by simp)
        | some r2 =>
          obtain ⟨st2x, caches, k2x⟩ := r2
          simp only [hrest, Option.some.injEq, Prod.mk.injEq] at h
          obtain ⟨hst1, hout, hk1⟩ := h
          subst hst1
          subst hout
          rcases spawnCache_cases st supply k cell stA cacheA kA hspawn with
            ⟨m, coins, hstored, hp, hca, hsta, -⟩ | ⟨coins, hfresh, -, hca, hsta, -⟩
          · subst hsta
            have hkeep := (regenCells_effects rest _ supply kA _ caches k2x hrest).2.2
              cell.toKey m hstored
            simp only [spawnCache_stored _ supply2 k2 cell m coins hkeep hp,
              ih _ supply kA _ caches k2x supply2 k2 hrest]
            rw [hca]
          · have hself : mapGet stA.cacheStorage cell.toKey
                = some (serializeStringList coins) := by
              rw [hsta]
              exact (mapGet_mapSet _ _ _ _).trans (if_pos rfl)
            have hkeep := (regenCells_effects rest stA supply kA _ caches k2x hrest).2.2
              cell.toKey (serializeStringList coins) hself
            simp only [spawnCache_stored _ supply2 k2 cell (serializeStringList coins) coins
                hkeep (parseStringList_serialize coins),
              ih stA supply kA _ caches k2x supply2 k2 hrest]
            rw [hca]
    · rw [if_neg hsp] at h ⊢
      exact ih st supply k st1 out k1 supply2 k2 h

/-! ## Claim C8 — window regeneration run twice -/

/-- C8: running the visibility-window regeneration twice consecutively with
no intervening mutation of player or store state yields the same set of
caches (same cells, same coin lists) and the same state, even though
first-time creation draws a random coin count — the second pass restores
every cache from the memento the first pass persisted. -/
theorem C8_regenerate_idempotent (st : GameState) (supply : Nat → Nat)
    (k : Nat) (st1 : GameState) (out : List Cache) (k1 : Nat)
    (supply2 : Nat → Nat) (k2 : Nat)
    (h : regenerateCaches st supply k = some (st1, out, k1)) :
    regenerateCaches st1 supply2 k2 = some (st1, out, k2) := by
  rw [regenerateCaches] at h ⊢
  rw [(regenCells_effects _ _ _ _ _ _ _ h).1]
  exact regenCells_idem _ _ _ _ _ _ _ _ _ h

/-- C8 witness: the idempotence theorem applied to a first regeneration from
an empty store around cell (0,0), with a different random supply and counter
on the second pass. -/
theorem C8_regenerate_idempotent_witness :
    regenerateCaches
        ((regenerateCaches ⟨⟨⟨0, 0⟩, [], []⟩, [], [], none⟩ (fun _ => 0) 0).getD
          (⟨⟨⟨0, 0⟩, [], []⟩, [], [], none⟩, [], 0)).1
        (fun _ => 3) 7
      = some
          (((regenerateCaches ⟨⟨⟨0, 0⟩, [], []⟩, [], [], none⟩ (fun _ => 0) 0).getD
            (⟨⟨⟨0, 0⟩, [], []⟩, [], [], none⟩, [], 0)).1,
           ((regenerateCaches ⟨⟨⟨0, 0⟩, [], []⟩, [], [], none⟩ (fun _ => 0) 0).getD
            (⟨⟨⟨0, 0⟩, [], []⟩, [], [], none⟩, [], 0)).2.1, 7) :=
  C8_regenerate_idempotent ⟨⟨⟨0, 0⟩, [], []⟩, [], [], none⟩ (fun _ => 0) 0 _ _ _
    (fun _ => 3) 7 (by rfl)

/-- Introduction form of the create branch of `spawnCache`. -/
theorem spawnCache_fresh (st : GameState) (supply : Nat → Nat) (k : Nat)
    (cell : Cell) (hst : mapGet st.cacheStorage cell.toKey = none) :
    spawnCache st supply k cell = some
      ({ st with
          cacheStorage := mapSet st.cacheStorage cell.toKey
            (serializeStringList ((List.range (supply k % 5 + 1)).map
              (fun serial => generateCoinID cell serial))),
          originalCacheStorage := mapSet st.originalCacheStorage cell.toKey
            (serializeStringList ((List.range (supply k % 5 + 1)).map
              (fun serial => generateCoinID cell serial))) },
       ⟨cell, (List.range (supply k % 5 + 1)).map
          (fun serial => generateCoinID cell serial)⟩, k + 1) := by
  simp only [spawnCache, hst]
  rfl

/-- Well-formed store: every stored memento parses. -/
def StoreWF (st : GameState) : Prop :=
  ∀ key m, mapGet st.cacheStorage key = some m → (parseStringList m).isSome = true

/-- From a well-formed store the regeneration pass always succeeds and leaves
the store well-formed. -/
theorem regenCells_total (cells : List Cell) :
    ∀ (st : GameState) (supply : Nat → Nat) (k : Nat), StoreWF st →
    ∃ st2 out k2, regenCells cells st supply k = some (st2, out, k2) ∧
      StoreWF st2 := by
  induction cells with
  | nil =>
    intro st supply k hwf
    exact ⟨st, [], k, rfl, hwf⟩
  | cons cell rest ih =>
    intro st supply k hwf
    by_cases hsp : shouldSpawn cell.i cell.j
    · cases hstored : mapGet st.cacheStorage cell.toKey with
      | some m =>
        have hp : (parseStringList m).isSome = true := hwf cell.toKey m hstored
        obtain ⟨coins, hps⟩ := Option.isSome_iff_exists.mp hp
        have hsc := spawnCache_stored st supply k cell m coins hstored hps
        obtain ⟨st2, out, k2, hrest, hwf2⟩ := ih st supply k hwf
        refine ⟨st2, ⟨cell, coins⟩ :: out, k2, ?_, hwf2⟩
        rw [regenCells, if_pos hsp]
        simp only [hsc, hrest]
      | none =>
        have hsc := spawnCache_fresh st supply k cell hstored
        have hwfA : StoreWF { st with
            cacheStorage := mapSet st.cacheStorage cell.toKey
              (serializeStringList ((List.range (supply k % 5 + 1)).map
                (fun serial => generateCoinID cell serial))),
            originalCacheStorage := mapSet st.originalCacheStorage cell.toKey
              (serializeStringList ((List.range (supply k % 5 + 1)).map
                (fun serial => generateCoinID cell serial))) } := by
          intro key m hm
          rw [show ({ st with
              cacheStorage := mapSet st.cacheStorage cell.toKey
                (serializeStringList ((List.range (supply k % 5 + 1)).map
                  (fun serial => generateCoinID cell serial))),
              originalCacheStorage := mapSet st.originalCacheStorage cell.toKey
                (serializeStringList ((List.range (supply k % 5 + 1)).map
                  (fun serial => generateCoinID cell serial))) } : GameState).cacheStorage
            = mapSet st.cacheStorage cell.toKey
                (serializeStringList ((List.range (supply k % 5 + 1)).map
                  (fun serial => generateCoinID cell serial))) from rfl,
            mapGet_mapSet] at hm
          by_cases hq : key = cell.toKey
          · rw [if_pos hq] at hm
            obtain rfl : serializeStringList ((List.range (supply k % 5 + 1)).map
                (fun serial => generateCoinID cell serial)) = m := by
              simpa using hm
            rw [parseStringList_serialize]
            rfl
          · rw [if_neg hq] at hm
            exact hwf key m hm
        obtain ⟨st2, out, k2, hrest, hwf2⟩ := ih _ supply (k + 1) hwfA
        refine ⟨st2, (⟨cell, (List.range (supply k % 5 + 1)).map
          (fun serial => generateCoinID cell serial)⟩ : Cache) :: out, k2, ?_, hwf2⟩
        rw [regenCells, if_pos hsp]
        simp only [hsc, hrest]
    · obtain ⟨st2, out, k2, hrest, hwf2⟩ := ih st supply k hwf
      refine ⟨st2, out, k2, ?_, hwf2⟩
      rw [regenCells, if_neg hsp]
      exact hrest

/-- Creation characterization: starting from a store with no entry at `key`,
the regeneration pass creates an entry at `key` exactly when some scanned cell
carries that key and the spawn guard approves it — independently of anything
else in the state. -/
theorem regenCells_creates (cells : List Cell) :
    ∀ (st : GameState) (supply : Nat → Nat) (k : Nat) st2 out k2 (key : String),
    regenCells cells st supply k = some (st2, out, k2) →
    mapGet st.cacheStorage key = none →
    ((mapGet st2.cacheStorage key).isSome = true
      ↔ ∃ c ∈ cells, c.toKey = key ∧ shouldSpawn c.i c.j = true) := by
  induction cells with
  | nil =>
    intro st supply k st2 out k2 key h hfresh
    simp only [regenCells, Option.some.injEq, Prod.mk.injEq] at h
    obtain ⟨h1, -, -⟩ := h
    subst h1
    simp [hfresh]
  | cons cell rest ih =>
    intro st supply k st2 out k2 key h hfresh
    rw [regenCells] at h
    by_cases hsp : shouldSpawn cell.i cell.j
    · rw [if_pos hsp] at h
      cases hspawn : spawnCache st supply k cell with
      | none =>
        simp only [hspawn] at h
        exact absurd h (by simp)
      | some r =>
        obtain ⟨stA, cacheA, kA⟩ := r
        simp only [hspawn] at h
        cases hrest : regenCells rest stA supply kA with
        | none =>
          simp only [hrest] at h
          exact absurd h (by simp)
        | some r2 =>
          obtain ⟨st2x, caches, k2x⟩ := r2
          simp only [hrest, Option.some.injEq, Prod.mk.injEq] at h
          obtain ⟨h1, -, -⟩ := h
          subst h1
          rcases spawnCache_cases st supply k cell stA cacheA kA hspawn with
            ⟨m, coins, hstored, -, -, hsta, -⟩ | ⟨coins, hfreshc, -, -, hsta, -⟩
          · subst hsta
            rw [ih _ supply kA _ caches k2x key hrest hfresh]
            constructor
            · rintro ⟨c, hc, hck, hcs⟩
              exact ⟨c, List.mem_cons_of_mem _ hc, hck, hcs⟩
            · rintro ⟨c, hc, hck, hcs⟩
              cases List.mem_cons.mp hc with
              | inl hceq =>
                subst hceq
                rw [hck] at hstored
                rw [hstored] at hfresh
                exact absurd hfresh (by simp)
              | inr hmem => exact ⟨c, hmem, hck, hcs⟩
          · by_cases hkey : cell.toKey = key
            · have hself : mapGet stA.cacheStorage key
                  = some (serializeStringList coins) := by
                rw [hsta, ← hkey]
                exact (mapGet_mapSet _ _ _ _).trans (if_pos rfl)
              have hkeep := (regenCells_effects rest stA supply kA _ caches k2x hrest).2.2
                key _ hself
              constructor
              · intro _
                exact ⟨cell, List.mem_cons_self _ _, hkey, hsp⟩
              · intro _
                rw [hkeep]
                rfl
            · have hfreshA : mapGet stA.cacheStorage key = none := by
                rw [hsta, mapGet_mapSet, if_neg (fun hq => hkey hq.symm)]
                exact hfresh
              rw [ih stA supply kA _ caches k2x key hrest hfreshA]
              constructor
              · rintro ⟨c, hc, hck, hcs⟩
                exact ⟨c, List.mem_cons_of_mem _ hc, hck, hcs⟩
              · rintro ⟨c, hc, hck, hcs⟩
                cases List.mem_cons.mp hc with
                | inl hceq =>
                  subst hceq
                  exact absurd hck hkey
                | inr hmem => exact ⟨c, hmem, hck, hcs⟩
    · rw [if_neg hsp] at h
      rw [ih st supply k st2 out k2 key h hfresh]
      constructor
      · rintro ⟨c, hc, hck, hcs⟩
        exact ⟨c, List.mem_cons_of_mem _ hc, hck, hcs⟩
      · rintro ⟨c, hc, hck, hcs⟩
        cases List.mem_cons.mp hc with
        | inl hceq =>
          subst hceq
          rw [hcs] at hsp
          exact absurd rfl hsp
        | inr hmem => exact ⟨c, hmem, hck, hcs⟩

/-! ## Claim C3 — the spawn decision is a pure function of the coordinates -/

/-- Whether a regeneration run leaves a cache entry at `key` (`none` when the
run itself fails on an unparseable memento). -/
def regenCreates (st : GameState) (supply : Nat → Nat) (k : Nat)
    (key : String) : Option Bool :=
  (regenerateCaches st supply k).map
    (fun r => (mapGet r.1.cacheStorage key).isSome)

/-- C3: whether regeneration creates a cache at a not-yet-stored cell key is
`some` fixed boolean determined by the player cell and the key alone — the
window cells carrying the key whose `shouldSpawn` guard approves.  The
right-hand side mentions neither the store contents, nor the history, nor the
random supply, nor the draw counter, so the existence decision is the same on
every evaluation, within and across sessions, for any two states whose player
sits at the same cell. -/
theorem C3_spawn_decision_pure (st : GameState) (supply : Nat → Nat) (k : Nat)
    (key : String) (p : Cell) (hp : st.player.cell = p) (hwf : StoreWF st)
    (hfresh : mapGet st.cacheStorage key = none) :
    regenCreates st supply k key
      = some ((windowCells p VISIBLE_RADIUS).any
          (fun c => (c.toKey == key) && shouldSpawn c.i c.j)) := by
  obtain ⟨st2, out, k2, hreg, -⟩ :=
    regenCells_total (windowCells p VISIBLE_RADIUS) st supply k hwf
  have hregen : regenerateCaches st supply k = some (st2, out, k2) := by
    rw [regenerateCaches, hp]
    exact hreg
  rw [regenCreates, hregen, Option.map_some']
  congr 1
  have hiff := regenCells_creates (windowCells p VISIBLE_RADIUS) st supply k
    st2 out k2 key hreg hfresh
  rw [Bool.eq_iff_iff, hiff, List.any_eq_true]
  constructor
  · rintro ⟨c, hc, hck, hcs⟩
    exact ⟨c, hc, by simp [hck, hcs]⟩
  · rintro ⟨c, hc, hx⟩
    rw [Bool.and_eq_true, beq_iff_eq] at hx
    exact ⟨c, hc, hx.1, hx.2⟩

/-- C3 witness: the purity theorem applied to a fresh session at cell (0,0)
and the cell key `"2:2"`. -/
theorem C3_spawn_decision_pure_witness :
    regenCreates ⟨⟨⟨0, 0⟩, [], []⟩, [], [], none⟩ (fun _ => 0) 0 "2:2"
      = some ((windowCells ⟨0, 0⟩ VISIBLE_RADIUS).any
          (fun c => (c.toKey == "2:2") && shouldSpawn c.i c.j)) :=
  C3_spawn_decision_pure ⟨⟨⟨0, 0⟩, [], []⟩, [], [], none⟩ (fun _ => 0) 0 "2:2"
    ⟨0, 0⟩ rfl (fun key m h => Option.noConfusion h) rfl

/-! ## Claim C1 — reset and the originally generated snapshots -/

/-- Collect, deposit and select never touch `originalCacheStorage`. -/
theorem runOps_originals (ops : List PlayerOp) (s : GameState × Cache) :
    (runOps s ops).1.originalCacheStorage = s.1.originalCacheStorage := by
  induction ops generalizing s with
  | nil => rfl
  | cons op ops ih =>
    have hstep : (applyOp s op).1.originalCacheStorage
        = s.1.originalCacheStorage := by
      match op with
      | .select coin =>
        show (selectCoin s.1 coin).originalCacheStorage = _
        rw [selectCoin]
        by_cases hmem : coin ∈ s.1.player.inventory
        · rw [if_pos hmem]
        · rw [if_neg hmem]
      | .deposit =>
        show (deposit s.1 s.2).1.originalCacheStorage = _
        rw [deposit]
        cases s.1.selectedCoin <;> rfl
      | .collect index =>
        show (collect s.1 s.2 index).1.originalCacheStorage = _
        simp only [collect]
        cases (s.2.removeCoin index).1 <;> rfl
    calc (runOps s (op :: ops)).1.originalCacheStorage
        = (runOps (applyOp s op) ops).1.originalCacheStorage := rfl
      _ = (applyOp s op).1.originalCacheStorage := ih (applyOp s op)
      _ = s.1.originalCacheStorage := hstep

/-- A one-entry storage whose memento parses is well formed. -/
theorem singleKeyWF (k0 v0 : String) (hp : (parseStringList v0).isSome = true) :
    ∀ kq m, mapGet [(k0, v0)] kq = some m →
      (parseStringList m).isSome = true := by
  intro kq m h
  simp only [mapGet, List.find?] at h
  by_cases hk : k0 = kq
  · simp [hk] at h
    rw [← h]
    exact hp
  · simp [hk] at h

/-- C1 amended: for every cache whose originally generated snapshot was
captured in this session (its key is in `originalCacheStorage`), reset after
any sequence of collect/deposit/select operations succeeds, restores that
cache's stored memento to exactly the original snapshot, and empties the
player's inventory.  The cross-session part of the claim fails:
`originalCacheStorage` is session-local and never persisted, so a cache
loaded from a previous session's save has no original snapshot and is instead
dropped from the store by reset (see the counterexample). -/
theorem C1_reset_restores_session_originals (ops : List PlayerOp)
    (s : GameState × Cache) (key o : String)
    (horig : mapGet s.1.originalCacheStorage key = some o)
    (hwforig : ∀ kq m, mapGet s.1.originalCacheStorage kq = some m →
      (parseStringList m).isSome = true)
    (supply : Nat → Nat) (k : Nat) :
    ∃ st2 out k2,
      resetFull (runOps s ops).1 supply k = some (st2, out, k2) ∧
      mapGet st2.cacheStorage key = some o ∧
      st2.player.inventory = [] := by
  have hro := runOps_originals ops s
  have hwf2 : StoreWF (resetState (runOps s ops).1) := by
    intro kq m hm
    rw [show (resetState (runOps s ops).1).cacheStorage
        = (runOps s ops).1.originalCacheStorage from rfl, hro] at hm
    exact hwforig kq m hm
  obtain ⟨st2, out, k2, hreg, -⟩ :=
    regenCells_total
      (windowCells (resetState (runOps s ops).1).player.cell VISIBLE_RADIUS)
      (resetState (runOps s ops).1) supply k hwf2
  refine ⟨st2, out, k2, hreg, ?_, ?_⟩
  · refine (regenCells_effects _ _ _ _ _ _ _ hreg).2.2 key o ?_
    rw [show (resetState (runOps s ops).1).cacheStorage
        = (runOps s ops).1.originalCacheStorage from rfl, hro]
    exact horig
  · rw [(regenCells_effects _ _ _ _ _ _ _ hreg).1]
    rfl

/-- C1 counterexample: a cache that exists in the store because it was loaded
from a previous session's save (so it has no entry in the session-local
`originalCacheStorage`) is not restored by reset — after the reset completes,
the store has no entry at its key at all, rather than the originally
generated snapshot. -/
theorem C1_reset_counterexample :
    mapGet (GameState.cacheStorage
        ⟨⟨⟨2, 2⟩, [], []⟩, [("2:2", serializeStringList ["2:2#0"])], [], none⟩)
        "2:2"
      = some (serializeStringList ["2:2#0"]) ∧
    (resetFull ⟨⟨⟨2, 2⟩, [], []⟩, [("2:2", serializeStringList ["2:2#0"])], [],
        none⟩ (fun _ => 0) 0).map (fun r => mapGet r.1.cacheStorage "2:2")
      = some none := by
  constructor
  · rfl
  · rfl

/-- C1 witness: the amended theorem applied to a session that created the
cache at (2,2) with a two-coin original snapshot and then collected a coin. -/
theorem C1_reset_restores_session_originals_witness :
    ∃ st2 out k2,
      resetFull (runOps (⟨⟨⟨2, 2⟩, ["2:2#0"], []⟩,
          [("2:2", serializeStringList ["2:2#1"])],
          [("2:2", serializeStringList ["2:2#0", "2:2#1"])], none⟩,
          ⟨⟨2, 2⟩, ["2:2#1"]⟩) [PlayerOp.collect 0]).1 (fun _ => 0) 0
        = some (st2, out, k2) ∧
      mapGet st2.cacheStorage "2:2"
        = some (serializeStringList ["2:2#0", "2:2#1"]) ∧
      st2.player.inventory = [] :=
  C1_reset_restores_session_originals [PlayerOp.collect 0]
    (⟨⟨⟨2, 2⟩, ["2:2#0"], []⟩, [("2:2", serializeStringList ["2:2#1"])],
      [("2:2", serializeStringList ["2:2#0", "2:2#1"])], none⟩,
      ⟨⟨2, 2⟩, ["2:2#1"]⟩)
    "2:2" (serializeStringList ["2:2#0", "2:2#1"]) (by decide)
    (singleKeyWF "2:2" (serializeStringList ["2:2#0", "2:2#1"])
      (by rw [parseStringList_serialize]; rfl))
    (fun _ => 0) 0

/-! ## Regeneration lemmas (part_000) -/

/-- Shifting a position by whole grid steps shifts the computed cell by the
same integer offsets (exact fixed-point arithmetic). -/
theorem getCellP_offset (lat lng : Coord) (di dj : Int) :
    getCellP (lat + di * TILE_UNITS) (lng + dj * TILE_UNITS)
      = ⟨(getCellP lat lng).i + di, (getCellP lat lng).j + dj⟩ := by
  rw [getCellP, getCellP, TILE_UNITS]
  rw [Int.fdiv_eq_ediv _ (by norm_num), Int.fdiv_eq_ediv _ (by norm_num),
    Int.fdiv_eq_ediv _ (by norm_num), Int.fdiv_eq_ediv _ (by norm_num),
    Int.add_mul_ediv_right _ _ (by norm_num),
    Int.add_mul_ediv_right _ _ (by norm_num)]

/-- The window cell scanned at offset `d` from the player position of `st`. -/
def cellAtP (st : StateP) (d : Int × Int) : Cell :=
  ⟨(getCellP st.playerLat st.playerLng).i + d.1,
   (getCellP st.playerLat st.playerLng).j + d.2⟩

/-- The cache `spawnTreasure` creates at `cell` from random draw `n`. -/
def freshCacheP (cell : Cell) (n : Nat) : CacheP :=
  ⟨cell, (List.range (n % 5 + 1)).map (fun serial => CoinP.mk cell serial)⟩

/-- Step equation of part_000's regeneration for a stored cell: the stored
cache is included as is, without consulting the spawn guard, and the state is
unchanged for this step. -/
theorem regenCellsP_cons_stored (d0 : Int × Int) (rest : List (Int × Int))
    (st : StateP) (supply : Nat → Nat) (k : Nat) (c0 : CacheP)
    (hst : getCacheState st (cellAtP st d0) = some c0) :
    regenCellsP (d0 :: rest) st supply k
      = ((regenCellsP rest st supply k).1,
         ((cellAtP st d0).toKey, c0) :: (regenCellsP rest st supply k).2.1,
         (regenCellsP rest st supply k).2.2) := by
  obtain ⟨di, dj⟩ := d0
  rw [regenCellsP]
  simp only [show getCacheState st
      ⟨(getCellP st.playerLat st.playerLng).i + di,
       (getCellP st.playerLat st.playerLng).j + dj⟩ = some c0 from hst]
  rfl

/-- Step equation of part_000's regeneration for an absent, spawn-approved
cell: a fresh cache is created from the supply, saved, and included. -/
theorem regenCellsP_cons_fresh (d0 : Int × Int) (rest : List (Int × Int))
    (st : StateP) (supply : Nat → Nat) (k : Nat)
    (hst : getCacheState st (cellAtP st d0) = none)
    (hsp : shouldSpawn (cellAtP st d0).i (cellAtP st d0).j = true) :
    regenCellsP (d0 :: rest) st supply k
      = ((regenCellsP rest
            (saveCacheState st (freshCacheP (cellAtP st d0) (supply k)))
            supply (k + 1)).1,
         ((cellAtP st d0).toKey, freshCacheP (cellAtP st d0) (supply k))
           :: (regenCellsP rest
                (saveCacheState st (freshCacheP (cellAtP st d0) (supply k)))
                supply (k + 1)).2.1,
         (regenCellsP rest
            (saveCacheState st (freshCacheP (cellAtP st d0) (supply k)))
            supply (k + 1)).2.2) := by
  obtain ⟨di, dj⟩ := d0
  rw [regenCellsP]
  simp only [show getCacheState st
      ⟨(getCellP st.playerLat st.playerLng).i + di,
       (getCellP st.playerLat st.playerLng).j + dj⟩ = none from hst,
    show shouldSpawn ((getCellP st.playerLat st.playerLng).i + di)
      ((getCellP st.playerLat st.playerLng).j + dj) = true from hsp,
    if_true, reduceIte]
  rw [spawnTreasure]
  simp only [add_sub_cancel_left, getCellP_offset]
  simp only [show getCacheState st
      ⟨(getCellP st.playerLat st.playerLng).i + di,
       (getCellP st.playerLat st.playerLng).j + dj⟩ = none from hst]
  rfl

/-- Step equation of part_000's regeneration for an absent, spawn-rejected
cell: nothing is included and nothing changes for this step. -/
theorem regenCellsP_cons_skip (d0 : Int × Int) (rest : List (Int × Int))
    (st : StateP) (supply : Nat → Nat) (k : Nat)
    (hst : getCacheState st (cellAtP st d0) = none)
    (hsp : shouldSpawn (cellAtP st d0).i (cellAtP st d0).j = false) :
    regenCellsP (d0 :: rest) st supply k = regenCellsP rest st supply k := by
  obtain ⟨di, dj⟩ := d0
  rw [regenCellsP]
  simp only [show getCacheState st
      ⟨(getCellP st.playerLat st.playerLng).i + di,
       (getCellP st.playerLat st.playerLng).j + dj⟩ = none from hst,
    show shouldSpawn ((getCellP st.playerLat st.playerLng).i + di)
      ((getCellP st.playerLat st.playerLng).j + dj) = false from hsp]
  rfl

/-- Saving a cache for an absent key preserves every stored binding. -/
theorem saveCacheState_preserves (st : StateP) (c : CacheP) (cell : Cell)
    (habs : getCacheState st c.cell = none) (cache : CacheP)
    (hv : getCacheState st cell = some cache) :
    getCacheState (saveCacheState st c) cell = some cache := by
  show mapGet (mapSet st.cacheState c.cell.toKey c) cell.toKey = some cache
  exact mapGet_mapSet_of_none _ _ _ _ _ habs hv

/-- Membership in the part_000 window offsets is exactly the inclusive square
`-r ≤ di, dj ≤ r`. -/
theorem windowOffsets_mem (r : Nat) (d : Int × Int) :
    d ∈ windowOffsets r
      ↔ -(r : Int) ≤ d.1 ∧ d.1 ≤ r ∧ -(r : Int) ≤ d.2 ∧ d.2 ≤ r := by
  obtain ⟨di, dj⟩ := d
  simp only [windowOffsets, List.mem_flatMap, List.mem_map, List.mem_range]
  constructor
  · rintro ⟨a, ha, b, hb, h⟩
    rw [Prod.mk.injEq] at h
    obtain ⟨h1, h2⟩ := h
    simp only [List.bind_eq_flatMap, List.mem_flatMap, List.mem_range, List.pure_def,
      List.mem_singleton] at hb
    obtain ⟨b0, hb0, rfl⟩ := hb
    refine ⟨?_, ?_, ?_, ?_⟩ <;> omega
  · rintro ⟨h1, h2, h3, h4⟩
    refine ⟨(di + r).toNat, by omega, ((dj + r).toNat : Int), ?_, ?_⟩
    · simp only [List.bind_eq_flatMap, List.mem_flatMap, List.mem_range, List.pure_def,
        List.mem_singleton]
      exact ⟨(dj + r).toNat, by omega, rfl⟩
    · rw [Prod.mk.injEq]
      constructor <;> omega

/-- A stored cache at a scanned offset is included in the part_000
regeneration output, paired with its cell key, without consulting the spawn
guard. -/
theorem regenCellsP_includes_stored (offsets : List (Int × Int)) :
    ∀ (st : StateP) (supply : Nat → Nat) (k : Nat) (d : Int × Int)
      (cache : CacheP),
    d ∈ offsets →
    getCacheState st (cellAtP st d) = some cache →
    ((cellAtP st d).toKey, cache) ∈ (regenCellsP offsets st supply k).2.1 := by
  induction offsets with
  | nil =>
    intro st supply k d cache hd
    exact absurd hd (List.not_mem_nil _)
  | cons d0 rest ih =>
    intro st supply k d cache hd hstored
    rcases List.mem_cons.mp hd with rfl | hmem
    · rw [regenCellsP_cons_stored d rest st supply k cache hstored]
      exact List.mem_cons_self _ _
    · cases hst0 : getCacheState st (cellAtP st d0) with
      | some c0 =>
        rw [regenCellsP_cons_stored d0 rest st supply k c0 hst0]
        exact List.mem_cons_of_mem _ (ih st supply k d cache hmem hstored)
      | none =>
        cases hsp : shouldSpawn (cellAtP st d0).i (cellAtP st d0).j with
        | false =>
          rw [regenCellsP_cons_skip d0 rest st supply k hst0 hsp]
          exact ih st supply k d cache hmem hstored
        | true =>
          rw [regenCellsP_cons_fresh d0 rest st supply k hst0 hsp]
          refine List.mem_cons_of_mem _ ?_
          exact ih (saveCacheState st (freshCacheP (cellAtP st d0) (supply k)))
            supply (k + 1) d cache hmem
            (saveCacheState_preserves st _ _ hst0 cache hstored)

/-- An absent, spawn-approved scanned cell always contributes some cache to
the part_000 regeneration output under its key. -/
theorem regenCellsP_includes_fresh (offsets : List (Int × Int)) :
    ∀ (st : StateP) (supply : Nat → Nat) (k : Nat) (key : String),
    mapGet st.cacheState key = none →
    (∃ d ∈ offsets, (cellAtP st d).toKey = key ∧
      shouldSpawn (cellAtP st d).i (cellAtP st d).j = true) →
    ∃ cp, (key, cp) ∈ (regenCellsP offsets st supply k).2.1 := by
  induction offsets with
  | nil =>
    intro st supply k key hfresh hex
    obtain ⟨d, hd, -⟩ := hex
    exact absurd hd (List.not_mem_nil _)
  | cons d0 rest ih =>
    intro st supply k key hfresh hex
    cases hst0 : getCacheState st (cellAtP st d0) with
    | some c0 =>
      rw [regenCellsP_cons_stored d0 rest st supply k c0 hst0]
      obtain ⟨d, hd, hk, hs⟩ := hex
      rcases List.mem_cons.mp hd with rfl | hmem
      · have hcontra : mapGet st.cacheState key = some c0 := by
          rw [← hk]
          exact hst0
        exact absurd (hcontra.symm.trans hfresh) (by simp)
      · obtain ⟨cp, hcp⟩ := ih st supply k key hfresh ⟨d, hmem, hk, hs⟩
        exact ⟨cp, List.mem_cons_of_mem _ hcp⟩
    | none =>
      by_cases hkey0 : (cellAtP st d0).toKey = key
      · cases hsp : shouldSpawn (cellAtP st d0).i (cellAtP st d0).j with
        | true =>
          rw [regenCellsP_cons_fresh d0 rest st supply k hst0 hsp]
          exact ⟨freshCacheP (cellAtP st d0) (supply k),
            hkey0 ▸ List.mem_cons_self _ _⟩
        | false =>
          rw [regenCellsP_cons_skip d0 rest st supply k hst0 hsp]
          obtain ⟨d, hd, hk, hs⟩ := hex
          rcases List.mem_cons.mp hd with rfl | hmem
          · rw [hsp] at hs
            exact absurd hs (by simp)
          · exact ih st supply k key hfresh ⟨d, hmem, hk, hs⟩
      · cases hsp : shouldSpawn (cellAtP st d0).i (cellAtP st d0).j with
        | false =>
          rw [regenCellsP_cons_skip d0 rest st supply k hst0 hsp]
          obtain ⟨d, hd, hk, hs⟩ := hex
          rcases List.mem_cons.mp hd with rfl | hmem
          · rw [hsp] at hs
            exact absurd hs (by simp)
          · exact ih st supply k key hfresh ⟨d, hmem, hk, hs⟩
        | true =>
          rw [regenCellsP_cons_fresh d0 rest st supply k hst0 hsp]
          obtain ⟨d, hd, hk, hs⟩ := hex
          rcases List.mem_cons.mp hd with rfl | hmem
          · exact absurd hk hkey0
          · have hfresh2 : mapGet
                (saveCacheState st (freshCacheP (cellAtP st d0) (supply k))).cacheState
                key = none := by
              show mapGet (mapSet st.cacheState (cellAtP st d0).toKey _) key = none
              rw [mapGet_mapSet, if_neg (fun hq => hkey0 hq.symm)]
              exact hfresh
            obtain ⟨cp, hcp⟩ := ih
              (saveCacheState st (freshCacheP (cellAtP st d0) (supply k)))
              supply (k + 1) key hfresh2 ⟨d, hmem, hk, hs⟩
            exact ⟨cp, List.mem_cons_of_mem _ hcp⟩

/-- An absent key whose every matching scanned cell is spawn-rejected never
appears in the part_000 regeneration output. -/
theorem regenCellsP_excludes (offsets : List (Int × Int)) :
    ∀ (st : StateP) (supply : Nat → Nat) (k : Nat) (key : String),
    mapGet st.cacheState key = none →
    (∀ d ∈ offsets, (cellAtP st d).toKey = key →
      shouldSpawn (cellAtP st d).i (cellAtP st d).j = false) →
    ∀ cp, (key, cp) ∉ (regenCellsP offsets st supply k).2.1 := by
  induction offsets with
  | nil =>
    intro st supply k key hfresh hrej cp hmem
    exact absurd hmem (List.not_mem_nil _)
  | cons d0 rest ih =>
    intro st supply k key hfresh hrej cp hmem
    cases hst0 : getCacheState st (cellAtP st d0) with
    | some c0 =>
      rw [regenCellsP_cons_stored d0 rest st supply k c0 hst0] at hmem
      rcases List.mem_cons.mp hmem with heq | hmem2
      · have hk : (cellAtP st d0).toKey = key :=
          (Prod.mk.injEq .. |>.mp heq).1.symm
        have hcontra : mapGet st.cacheState key = some c0 := by
          rw [← hk]
          exact hst0
        exact absurd (hcontra.symm.trans hfresh) (by simp)
      · exact ih st supply k key hfresh
          (fun d hd hk => hrej d (List.mem_cons_of_mem _ hd) hk) cp hmem2
    | none =>
      cases hsp : shouldSpawn (cellAtP st d0).i (cellAtP st d0).j with
      | false =>
        rw [regenCellsP_cons_skip d0 rest st supply k hst0 hsp] at hmem
        exact ih st supply k key hfresh
          (fun d hd hk => hrej d (List.mem_cons_of_mem _ hd) hk) cp hmem
      | true =>
        rw [regenCellsP_cons_fresh d0 rest st supply k hst0 hsp] at hmem
        rcases List.mem_cons.mp hmem with heq | hmem2
        · have hk : (cellAtP st d0).toKey = key :=
            (Prod.mk.injEq .. |>.mp heq).1.symm
          have hrej0 := hrej d0 (List.mem_cons_self _ _) hk
          rw [hsp] at hrej0
          exact absurd hrej0 (by simp)
        · by_cases hkey0 : (cellAtP st d0).toKey = key
          · have hrej0 := hrej d0 (List.mem_cons_self _ _) hkey0
            rw [hsp] at hrej0
            exact absurd hrej0 (by simp)
          · have hfresh2 : mapGet
                (saveCacheState st (freshCacheP (cellAtP st d0) (supply k))).cacheState
                key = none := by
              show mapGet (mapSet st.cacheState (cellAtP st d0).toKey _) key = none
              rw [mapGet_mapSet, if_neg (fun hq => hkey0 hq.symm)]
              exact hfresh
            exact ih (saveCacheState st (freshCacheP (cellAtP st d0) (supply k)))
              supply (k + 1) key hfresh2
              (fun d hd hk => hrej d (List.mem_cons_of_mem _ hd) hk) cp hmem2

/-- Every key in the part_000 regeneration output is the key of some scanned
window cell. -/
theorem regenCellsP_covers (offsets : List (Int × Int)) :
    ∀ (st : StateP) (supply : Nat → Nat) (k : Nat) (key : String) (cp : CacheP),
    (key, cp) ∈ (regenCellsP offsets st supply k).2.1 →
    ∃ d ∈ offsets, (cellAtP st d).toKey = key := by
  induction offsets with
  | nil =>
    intro st supply k key cp hmem
    exact absurd hmem (List.not_mem_nil _)
  | cons d0 rest ih =>
    intro st supply k key cp hmem
    cases hst0 : getCacheState st (cellAtP st d0) with
    | some c0 =>
      rw [regenCellsP_cons_stored d0 rest st supply k c0 hst0] at hmem
      rcases List.mem_cons.mp hmem with heq | hmem2
      · exact ⟨d0, List.mem_cons_self _ _, (Prod.mk.injEq .. |>.mp heq).1.symm⟩
      · obtain ⟨d, hd, hk⟩ := ih st supply k key cp hmem2
        exact ⟨d, List.mem_cons_of_mem _ hd, hk⟩
    | none =>
      cases hsp : shouldSpawn (cellAtP st d0).i (cellAtP st d0).j with
      | false =>
        rw [regenCellsP_cons_skip d0 rest st supply k hst0 hsp] at hmem
        obtain ⟨d, hd, hk⟩ := ih st supply k key cp hmem
        exact ⟨d, List.mem_cons_of_mem _ hd, hk⟩
      | true =>
        rw [regenCellsP_cons_fresh d0 rest st supply k hst0 hsp] at hmem
        rcases List.mem_cons.mp hmem with heq | hmem2
        · exact ⟨d0, List.mem_cons_self _ _, (Prod.mk.injEq .. |>.mp heq).1.symm⟩
        · obtain ⟨d, hd, hk⟩ := ih
            (saveCacheState st (freshCacheP (cellAtP st d0) (supply k)))
            supply (k + 1) key cp hmem2
          exact ⟨d, List.mem_cons_of_mem _ hd, hk⟩

/-- C4 (amended, proved of the part_000 evolution): the regeneration scan of
`regenerateCachesP` considers exactly the inclusive square of offsets
`|Δi| ≤ SEARCH_RADIUS` and `|Δj| ≤ SEARCH_RADIUS` around the player's cell,
and for each scanned cell: a cache already held by the store for that cell is
included in the result as is, without re-consulting the spawn decision; an
absent, spawn-approved cell contributes a cache under its key; an absent key
every matching scanned cell of which is spawn-rejected contributes nothing;
and every key of the result comes from a scanned window cell.  (The main.ts
evolution violates the stored-entry clause: its guard-first loop skips stored
caches at spawn-rejected cells — see the companion counterexample.) -/
theorem C4_window_regeneration (st : StateP) (supply : Nat → Nat) (k : Nat) :
    (∀ d : Int × Int, d ∈ windowOffsets SEARCH_RADIUS ↔
      -(SEARCH_RADIUS : Int) ≤ d.1 ∧ d.1 ≤ SEARCH_RADIUS ∧
      -(SEARCH_RADIUS : Int) ≤ d.2 ∧ d.2 ≤ SEARCH_RADIUS)
    ∧
    (∀ d ∈ windowOffsets SEARCH_RADIUS, ∀ cache : CacheP,
      getCacheState st (cellAtP st d) = some cache →
      ((cellAtP st d).toKey, cache) ∈ (regenerateCachesP st supply k).2.1)
    ∧
    (∀ key : String, mapGet st.cacheState key = none →
      (∃ d ∈ windowOffsets SEARCH_RADIUS, (cellAtP st d).toKey = key ∧
        shouldSpawn (cellAtP st d).i (cellAtP st d).j = true) →
      ∃ cp, (key, cp) ∈ (regenerateCachesP st supply k).2.1)
    ∧
    (∀ key : String, mapGet st.cacheState key = none →
      (∀ d ∈ windowOffsets SEARCH_RADIUS, (cellAtP st d).toKey = key →
        shouldSpawn (cellAtP st d).i (cellAtP st d).j = false) →
      ∀ cp, (key, cp) ∉ (regenerateCachesP st supply k).2.1)
    ∧
    (∀ (key : String) (cp : CacheP),
      (key, cp) ∈ (regenerateCachesP st supply k).2.1 →
      ∃ d ∈ windowOffsets SEARCH_RADIUS, (cellAtP st d).toKey = key) := by
  refine ⟨fun d => windowOffsets_mem SEARCH_RADIUS d, ?_, ?_, ?_, ?_⟩
  · intro d hd cache hstored
    exact regenCellsP_includes_stored (windowOffsets SEARCH_RADIUS)
      st supply k d cache hd hstored
  · intro key hfresh hex
    exact regenCellsP_includes_fresh (windowOffsets SEARCH_RADIUS)
      st supply k key hfresh hex
  · intro key hfresh hrej cp
    exact regenCellsP_excludes (windowOffsets SEARCH_RADIUS)
      st supply k key hfresh hrej cp
  · intro key cp hmem
    exact regenCellsP_covers (windowOffsets SEARCH_RADIUS)
      st supply k key cp hmem

/-- A part_000 session state with the player at the grid origin and a single
stored cache at cell (0, 3), three grid steps east, inside the search
window. -/
def stP4 : StateP :=
  ⟨0, 0, 0, [("0:3", ⟨⟨0, 3⟩, [⟨⟨0, 3⟩, 0⟩]⟩)]⟩

/-- A fixed random supply for the C4 witness. -/
def supplyP4 : Nat → Nat := fun _ => 0

/-- C4 witness: offset (0, 3) is scanned, `stP4` stores a cache for the cell
there, and the regeneration output includes that stored cache under its
key. -/
theorem C4_window_regeneration_witness :
    ((0, 3) : Int × Int) ∈ windowOffsets SEARCH_RADIUS ∧
    getCacheState stP4 (cellAtP stP4 (0, 3))
      = some ⟨⟨0, 3⟩, [⟨⟨0, 3⟩, 0⟩]⟩ ∧
    ((cellAtP stP4 (0, 3)).toKey, (⟨⟨0, 3⟩, [⟨⟨0, 3⟩, 0⟩]⟩ : CacheP))
      ∈ (regenerateCachesP stP4 supplyP4 0).2.1 :=
  ⟨by decide, by decide,
   (C4_window_regeneration stP4 supplyP4 0).2.1 (0, 3) (by decide)
     ⟨⟨0, 3⟩, [⟨⟨0, 3⟩, 0⟩]⟩ (by decide)⟩

/-- The memento stored for cell (2, 0) in the C4 main.ts counterexample: a
one-coin list, well formed for `Cache.fromMemento`. -/
def mementoC4 : String := serializeStringList [generateCoinID ⟨2, 0⟩ 0]

/-- A main.ts session state with the player at the grid origin and a stored
(and parseable) memento for cell (2, 0), inside the visibility window. -/
def stC4 : GameState :=
  ⟨⟨⟨0, 0⟩, [], []⟩, [("2:0", mementoC4)], [("2:0", mementoC4)], none⟩

/-- A fixed random supply for the C4 main.ts counterexample. -/
def supplyC4 : Nat → Nat := fun _ => 0

/-- C4 counterexample (main.ts): cell (2, 0) is inside the visibility window
of the player's cell (0, 0) and the store holds a parseable cache memento for
it, yet because main.ts's `regenerateCaches` consults the spawn guard before
looking at the store and `shouldSpawn 2 0` is false, the regeneration output
contains no cache for that cell. -/
theorem C4_main_guard_counterexample :
    shouldSpawn 2 0 = false
    ∧ Cell.mk 2 0 ∈ windowCells ⟨0, 0⟩ VISIBLE_RADIUS
    ∧ mapGet stC4.cacheStorage (Cell.mk 2 0).toKey = some mementoC4
    ∧ (Cache.fromMemento ⟨⟨2, 0⟩, []⟩ mementoC4).isSome = true
    ∧ (regenerateCaches stC4 supplyC4 0).map
        (fun r => r.2.1.any (fun c => decide (c.cell = Cell.mk 2 0)))
      = some false := by
  refine ⟨by decide, by decide, by decide, ?_, ?_⟩
  · rw [Cache.fromMemento, mementoC4,
      parseStringList_serialize [generateCoinID ⟨2, 0⟩ 0]]
    rfl
  · rfl

end TreasureSeeker
